import Mathlib

/-!
Verification of the scheduling-decision engine of the AI scheduling assistant.

The embedding models calendar timestamps as integers on a minute timeline
(one day = 1440 minutes, so 09:00 of day 0 is 540); Python `datetime`
comparison and `timedelta` arithmetic carry over verbatim to integer
comparison and addition.  Fallible code (index errors, `None` calendars,
unparseable oracle responses) is modelled with `Option`.
-/

/-- A calendar event, after `parse_time`: the fields of the event dicts of
`get_attendee_events.py` / `main.py` (`StartTime`, `EndTime`, `NumAttendees`,
`Attendees`, `Summary`). -/
structure Event where
  StartTime : Int
  EndTime : Int
  NumAttendees : Nat
  Attendees : List String
  Summary : String
deriving Repr, DecidableEq

/-- The `attendee_events` dict: insertion-ordered association of attendee
email to event list. -/
abbrev AttendeeEvents := List (String × List Event)

/-- One entry of the `conflicting_meetings` list built by `has_conflict`
(`propose_time.py`).  `cstart`/`cend`/`csummary` are the dict keys
`start`/`end`/`summary` (`end` is reserved in Lean). -/
structure ConflictRecord where
  attendee : String
  meeting : Event
  cstart : Int
  cend : Int
  csummary : String
deriving Repr, DecidableEq

/-- `times_overlap` of `main.py` (the same strict-inequality test is inlined
in `has_conflict` of `propose_time.py`): two ranges overlap iff
`start1 < end2 and start2 < end1`. -/
def times_overlap (s1 e1 s2 e2 : Int) : Bool :=
  decide (s1 < e2 ∧ s2 < e1)

/-- The conflict records one attendee's calendar contributes in
`has_conflict`: skip `"Off Hours"` events, record each remaining event that
overlaps the proposed window. -/
def conflictsOfCalendar (ps pe : Int) (email : String) (events : List Event) :
    List ConflictRecord :=
  (events.filter (fun ev =>
      decide (ev.Summary ≠ "Off Hours") &&
      times_overlap ps pe ev.StartTime ev.EndTime)).map
    (fun ev => ⟨email, ev, ev.StartTime, ev.EndTime, ev.Summary⟩)

/-- The full `conflicting_meetings` list accumulated by `has_conflict` over
all attendees. -/
def conflicting_meetings (ps pe : Int) (snap : AttendeeEvents) :
    List ConflictRecord :=
  snap.flatMap (fun p => conflictsOfCalendar ps pe p.1 p.2)

/-- `has_conflict` of `propose_time.py`: returns
`(len(conflicting_meetings) > 0, conflicting_meetings)`. -/
def has_conflict (ps pe : Int) (snap : AttendeeEvents) :
    Bool × List ConflictRecord :=
  (decide (0 < (conflicting_meetings ps pe snap).length),
   conflicting_meetings ps pe snap)

/-- The `busy_times` list of `find_first_free_slot_in_window`: all
non-`"Off Hours"` `(start, end)` pairs of every attendee, in iteration
order. -/
def busy_times (snap : AttendeeEvents) : List (Int × Int) :=
  snap.flatMap (fun p =>
    (p.2.filter (fun ev => decide (ev.Summary ≠ "Off Hours"))).map
      (fun ev => (ev.StartTime, ev.EndTime)))

/-- Comparison key of `busy_times.sort(key=lambda x: x["start"])`. -/
def startLE (a b : Int × Int) : Prop := a.1 ≤ b.1

instance : DecidableRel startLE := fun a b => Int.decLe a.1 b.1

instance : IsTotal (Int × Int) startLE := ⟨fun a b => Int.le_total a.1 b.1⟩

instance : IsTrans (Int × Int) startLE := ⟨fun _ _ _ h1 h2 => le_trans h1 h2⟩

/-- The interval-merge loop of `find_first_free_slot_in_window` (lines
86–92): `cur` is the last accumulated interval (`merged_busy_times[-1]`);
an interval starting before `cur` ends is absorbed (`end = max(...)`),
otherwise `cur` is committed and the scan continues. -/
def mergeGo (cur : Int × Int) : List (Int × Int) → List (Int × Int)
  | [] => [cur]
  | y :: rest =>
    if y.1 < cur.2 then mergeGo (cur.1, max cur.2 y.2) rest
    else cur :: mergeGo y rest

/-- `merged_busy_times`: merge a (sorted) list of busy intervals into a
disjoint timeline. -/
def mergeIntervals : List (Int × Int) → List (Int × Int)
  | [] => []
  | x :: rest => mergeGo x rest

/-- The gap-walk of `find_first_free_slot_in_window` (lines 96–112):
`lbe` is `last_busy_end`.  For each merged busy interval the candidate gap
is `[max(lbe, ws), min(busy.start, we))`; the first gap of length at least
`d` is returned, placed at its start; after the last interval the tail gap
`[max(lbe, ws), we)` is checked.  Lengths are integer differences, so a
negative-length gap never qualifies for positive `d`, as in the source. -/
def scanGaps (ws we d : Int) : Int → List (Int × Int) → Option (Int × Int)
  | lbe, [] =>
    if d ≤ we - max lbe ws then some (max lbe ws, max lbe ws + d) else none
  | lbe, b :: rest =>
    if d ≤ min b.1 we - max lbe ws then some (max lbe ws, max lbe ws + d)
    else scanGaps ws we d b.2 rest

/-- `find_first_free_slot_in_window` of `propose_time.py`: `none` models the
`(None, None)` return. -/
def find_first_free_slot_in_window (ws we d : Int) (snap : AttendeeEvents) :
    Option (Int × Int) :=
  match busy_times snap with
  | [] => if ws + d ≤ we then some (ws, ws + d) else none
  | x :: rest =>
    scanGaps ws we d ws
      (mergeIntervals (List.insertionSort startLE (x :: rest)))

/-- One row of the `all_events` list of `find_free_slots`: a non-protected
event's start, end and owning attendee. -/
structure BroadEvent where
  estart : Int
  eend : Int
  attendee : String
deriving Repr, DecidableEq

/-- The `all_events` list of `find_free_slots`: every non-`"Off Hours"`
event of every attendee. -/
def all_events_broad (snap : AttendeeEvents) : List BroadEvent :=
  snap.flatMap (fun p =>
    (p.2.filter (fun ev => decide (ev.Summary ≠ "Off Hours"))).map
      (fun ev => ⟨ev.StartTime, ev.EndTime, p.1⟩))

/-- Comparison key of `all_events.sort(key=lambda x: x["start"])`. -/
def broadLE (a b : BroadEvent) : Prop := a.estart ≤ b.estart

instance : DecidableRel broadLE := fun a b => Int.decLe a.estart b.estart

instance : IsTotal BroadEvent broadLE := ⟨fun a b => Int.le_total a.estart b.estart⟩

instance : IsTrans BroadEvent broadLE := ⟨fun _ _ _ h1 h2 => le_trans h1 h2⟩

/-- `replace(hour=9, minute=0, second=0, microsecond=0)` on the minute
timeline: 09:00 of the day containing `t` (floor division, one day =
1440 minutes). -/
def nineAMofDay (t : Int) : Int := (Int.fdiv t 1440) * 1440 + 540

/-- The per-iteration `conflicts` flag of the scan loop of
`find_free_slots`: the slot `[current, current + d)` overlaps some event. -/
def broadConflicts (d current : Int) (events : List BroadEvent) : Bool :=
  events.any (fun ev => decide (current < ev.eend ∧ current + d > ev.estart))

/-- The per-iteration `next_event_start` of `find_free_slots`: starting from
`end_time`, take the minimum end of every conflicting event whose end is
after `current`. -/
def broadNextEventStart (d endTime current : Int) (events : List BroadEvent) :
    Int :=
  events.foldl (fun acc ev =>
    if current < ev.eend ∧ current + d > ev.estart then
      (if ev.eend > current then min acc ev.eend else acc)
    else acc) endTime

/-- The per-iteration `next_conflict` of `find_free_slots`: starting from
`end_time`, the minimum start among events starting at or after
`current`. -/
def broadNextConflict (endTime current : Int) (events : List BroadEvent) :
    Int :=
  events.foldl (fun acc ev =>
    if ev.estart ≥ current then min acc ev.estart else acc) endTime

/-- The `while current_time < end_time` scan loop of `find_free_slots`
(lines 146–173), with an explicit iteration budget: `none` marks budget
exhaustion while the guard still holds (the budget chosen in
`find_free_slots` is large enough that this never happens, which is proved
below); on a conflict the cursor jumps to `next_event_start`, otherwise the
slot is recorded when `next_conflict` leaves room and the cursor advances by
the 30-minute stride. -/
def broadLoop (d endTime : Int) (events : List BroadEvent) :
    Nat → Int → List (Int × Int) → Option (List (Int × Int))
  | 0, current, acc => if current < endTime then none else some acc
  | fuel + 1, current, acc =>
    if current < endTime then
      if broadConflicts d current events then
        broadLoop d endTime events fuel
          (broadNextEventStart d endTime current events) acc
      else
        broadLoop d endTime events fuel (current + 30)
          (if broadNextConflict endTime current events ≥ current + d then
            acc ++ [(current, current + d)]
          else acc)
    else some acc

/-- `find_free_slots` of `propose_time.py`: `none` models the `IndexError`
raised by `all_events[0]` when no non-protected event exists; otherwise the
scan starts at 09:00 of the earliest event's day, runs to a 2-day horizon,
and the first 5 recorded slots are returned. -/
def find_free_slots (d : Int) (snap : AttendeeEvents) :
    Option (List (Int × Int)) :=
  match List.insertionSort broadLE (all_events_broad snap) with
  | [] => none
  | e0 :: rest =>
    let current0 := nineAMofDay e0.estart
    let endTime := current0 + 2 * 1440
    (broadLoop d endTime (e0 :: rest) ((endTime - current0).toNat + 1)
        current0 []).map (fun acc => acc.take 5)

/-- The `proposed_time` dict produced by the (external) time-window
extractor: start, end, and duration in minutes. -/
structure ProposedTime where
  start_time : Int
  end_time : Int
  duration : Int
deriving Repr, DecidableEq

/-- A scheduling decision: the dict shape shared by the three deterministic
tiers and the parsed oracle response.  `none` fields model JSON `null` /
missing keys (falsy values in the source's truthiness tests). -/
structure Decision where
  proposed_final_start : Option Int
  proposed_final_end : Option Int
  conflicting_final_start : Option Int
  conflicting_final_end : Option Int
  decision_reason : String
deriving Repr, DecidableEq

/-- Which of the four return sites of `intelligent_meeting_scheduler`
produced the decision. -/
inductive Tier
  | tier1
  | tier2
  | tier3
  | tier4
deriving Repr, DecidableEq

/-- The proposed-window-verbatim decision returned by tiers 1 and 4. -/
def verbatimDecision (pt : ProposedTime) (reason : String) : Decision :=
  { proposed_final_start := some pt.start_time
    proposed_final_end := some pt.end_time
    conflicting_final_start := none
    conflicting_final_end := none
    decision_reason := reason }

/-- `intelligent_meeting_scheduler` of `propose_time.py`, from the point the
proposed window and fetched snapshot are in hand (the extractor and fetcher
are external collaborators).  `oracle` is `schedule_with_llm` as an opaque
function; its `none` models an unparseable (malformed) response, whose
`json.loads` error the source does not catch, so the whole call returns
nothing (`none`).  The `Tier` component records which return site fired. -/
def intelligent_meeting_scheduler (pt : ProposedTime) (snap : AttendeeEvents)
    (oracle : List ConflictRecord → List (Int × Int) → Option Decision) :
    Option (Decision × Tier) :=
  let hc := has_conflict pt.start_time pt.end_time snap
  if hc.1 = false then
    some (verbatimDecision pt
      "Scheduled at the start of the requested window as it was free.",
      Tier.tier1)
  else
    match find_first_free_slot_in_window pt.start_time pt.end_time
        pt.duration snap with
    | some (s, e) =>
      some ({ proposed_final_start := some s
              proposed_final_end := some e
              conflicting_final_start := none
              conflicting_final_end := none
              decision_reason := "Scheduled in the first available slot within the requested window, avoiding a conflict." },
            Tier.tier2)
    | none =>
      match find_free_slots pt.duration snap with
      | none => none
      | some free_slots =>
        if free_slots.isEmpty then
          some (verbatimDecision pt
            "Conflict exists but no alternative slots were found.",
            Tier.tier4)
        else (oracle hc.2 free_slots).map (fun dec => (dec, Tier.tier3))

/-- The meeting request fields consumed by the applier and fetcher
(`From`, `Attendees` as plain emails, `Subject`); the remaining request
fields are response passthrough and play no part in the modelled logic. -/
structure Request where
  From : String
  Attendees : List String
  Subject : String
deriving Repr, DecidableEq

/-- `all_attendee_emails` as built in `apply_rescheduling_to_attendee_events`
and `process_scheduler_results`: the listed attendees, with the sender
prepended when absent. -/
def all_attendee_emails (req : Request) : List String :=
  if req.From ∈ req.Attendees then req.Attendees else req.From :: req.Attendees

/-- Step 1 of the applier on one attendee's list: every non-protected event
overlapping the proposed window is removed and re-appended at the
rescheduled times with its other fields preserved; `"Off Hours"` events are
skipped.  Removals keep the original order of the survivors and the
rescheduled copies are appended after them, as in the source's
index-removal-then-append loop. -/
def relocate_overlapping (ps pe rs re : Int) (events : List Event) :
    List Event :=
  events.filter (fun ev =>
      !(times_overlap ev.StartTime ev.EndTime ps pe &&
        decide (ev.Summary ≠ "Off Hours"))) ++
  (events.filter (fun ev =>
      times_overlap ev.StartTime ev.EndTime ps pe &&
      decide (ev.Summary ≠ "Off Hours"))).map
    (fun ev => { ev with StartTime := rs, EndTime := re })

/-- The duplicate test of the applier's insertion step (`meeting_exists`):
an event with identical start, end and summary. -/
def isTriple (ps pe : Int) (subj : String) (ev : Event) : Bool :=
  decide (ev.StartTime = ps ∧ ev.EndTime = pe ∧ ev.Summary = subj)

/-- Dict update on the association-list model: apply `f` to the entry of
`email`, creating it with `f []` when missing (the source's
`if email not in updated_events: updated_events[email] = []` followed by a
mutation of that entry). -/
def dictUpdate (snap : AttendeeEvents) (email : String)
    (f : List Event → List Event) : AttendeeEvents :=
  if snap.any (fun p => decide (p.1 = email)) then
    snap.map (fun p => if p.1 = email then (p.1, f p.2) else p)
  else snap ++ [(email, f [])]

/-- The `new_meeting_event` dict of the applier: proposed final times,
subject as summary, full (sender-included) attendee list and count. -/
def new_meeting_event (ps pe : Int) (req : Request) : Event :=
  { StartTime := ps, EndTime := pe,
    NumAttendees := (all_attendee_emails req).length,
    Attendees := all_attendee_emails req, Summary := req.Subject }

/-- Step 1 of the applier: when both rescheduled times are present, every
attendee's overlapping non-protected events are relocated; otherwise the
snapshot passes through. -/
def reschedule_step (snap : AttendeeEvents) (decision : Decision)
    (ps pe : Int) : AttendeeEvents :=
  match decision.conflicting_final_start, decision.conflicting_final_end with
  | some rs, some re => snap.map (fun p =>
      (p.1, relocate_overlapping ps pe rs re p.2))
  | _, _ => snap

/-- The `meeting_exists` guard plus append of the applier's insertion step:
append the new meeting unless an identical (start, end, summary) event
already exists. -/
def insert_if_absent (ps pe : Int) (req : Request) (evs : List Event) :
    List Event :=
  if evs.any (isTriple ps pe req.Subject) then evs
  else evs ++ [new_meeting_event ps pe req]

/-- Step 2 of the applier: add the new meeting to every listed attendee's
calendar (creating missing entries) unless an identical
(start, end, summary) event already exists there. -/
def insert_step (ps pe : Int) (req : Request) (snap : AttendeeEvents) :
    AttendeeEvents :=
  (all_attendee_emails req).foldl (fun acc email =>
    dictUpdate acc email (insert_if_absent ps pe req)) snap

/-- `apply_rescheduling_to_attendee_events` of `main.py`.  The source
deep-copies before mutating; value semantics make the copy implicit here.
Missing/falsy decision times are the `none` branches. -/
def apply_rescheduling_to_attendee_events (snap : AttendeeEvents)
    (decision : Decision) (req : Request) : AttendeeEvents :=
  match decision.proposed_final_start, decision.proposed_final_end with
  | some ps, some pe =>
    insert_step ps pe req (reschedule_step snap decision ps pe)
  | _, _ => snap

/-- `filter_off_hours_events` of `main.py`. -/
def filter_off_hours_events (events : List Event) : List Event :=
  events.filter (fun ev => decide (ev.Summary ≠ "Off Hours"))

/-- Comparison key of the response sort
`attendee_events_list.sort(key=lambda x: x["StartTime"])` (lexicographic on
fixed-format ISO strings = chronological). -/
def eventStartLE (a b : Event) : Prop := a.StartTime ≤ b.StartTime

instance : DecidableRel eventStartLE := fun a b => Int.decLe a.StartTime b.StartTime

instance : IsTotal Event eventStartLE := ⟨fun a b => Int.le_total a.StartTime b.StartTime⟩

instance : IsTrans Event eventStartLE := ⟨fun _ _ _ h1 h2 => le_trans h1 h2⟩

/-- Dict lookup on the association-list model (shared by the working
calendars and the fetch-result dict). -/
def lookupD {β : Type} (d : List (String × β)) (k : String) : Option β :=
  (d.find? (fun p => decide (p.1 = k))).map (fun p => p.2)

/-- The calendar-shaping part of `process_scheduler_results` of `main.py`:
apply the decision, filter `"Off Hours"` from every attendee, then build the
response list over `all_attendee_emails` with each calendar sorted by start
(missing attendees get `[]` via `.get(email, [])`). -/
def process_scheduler_results (snap : AttendeeEvents) (decision : Decision)
    (req : Request) : List (String × List Event) :=
  let updated := apply_rescheduling_to_attendee_events snap decision req
  let filtered := updated.map (fun p => (p.1, filter_off_hours_events p.2))
  (all_attendee_emails req).map (fun email =>
    (email,
     List.insertionSort eventStartLE ((lookupD filtered email).getD [])))

/-- The retry loop of `schedule_meeting` in `main.py`: `run` is one whole
pipeline attempt (`none` = raised exception), tried while
`retry_count <= max_retries`; with `max_retries = 2` that is three attempts,
after which the failure becomes the HTTP 500 (`none`). -/
def retry_pipeline {α : Type} (run : Nat → Option α) :
    Nat → Nat → Option α
  | _, 0 => none
  | attempt, n + 1 =>
    match run attempt with
    | some r => some r
    | none => retry_pipeline run (attempt + 1) n

/-- `schedule_meeting` of `main.py`, reduced to its retry behaviour. -/
def schedule_meeting {α : Type} (run : Nat → Option α) : Option α :=
  retry_pipeline run 0 3

/-- A calendar date, the `YYYY-MM-DD` part of an ISO timestamp
`YYYY-MM-DDTHH:MM:SS+05:30`: the result of `split("T")[0]` then
`split("-")`. -/
structure DateYMD where
  year : Nat
  month : Nat
  day : Nat
deriving Repr, DecidableEq

/-- An ISO timestamp split into its date and time-of-day parts (the only
decomposition the fetch-window code performs). -/
structure IsoTimestamp where
  date : DateYMD
  timeOfDay : String
deriving Repr, DecidableEq

/-- The fetch-window computation of `get_attendee_events_2_days`
(`get_attendee_events.py` lines 28–39).  The source does string surgery:
`start_day = start_time.split("T")[0]`,
`end_day_plus_one = end_time.split("T")[0]` with its day component replaced
by `str(int(day) + 0)` — incremented by `0`, the source comment reading
"Note: This adds 0, should it be +1?" — and requests
`(f"{start_day}T00:00:00+05:30", f"{end_day_plus_one}T23:59:59+05:30")`.
Here the split-out date is the structured `DateYMD`. -/
def get_attendee_events_2_days_window (startTime endTime : IsoTimestamp) :
    (DateYMD × String) × (DateYMD × String) :=
  let start_day := startTime.date
  let end_day_plus_one := { endTime.date with day := endTime.date.day + 0 }
  ((start_day, "00:00:00+05:30"), (end_day_plus_one, "23:59:59+05:30"))

/-- Dict write `events[email] = v` on the association-list model of the
fetch-result dict (values are `Option` event lists: `none` is the explicit
marker stored for a failed retrieval). -/
def dictSet (d : List (String × Option (List Event))) (k : String)
    (v : Option (List Event)) : List (String × Option (List Event)) :=
  if d.any (fun p => decide (p.1 = k)) then
    d.map (fun p => if p.1 = k then (p.1, v) else p)
  else d ++ [(k, v)]

/-- `get_all_attendee_events_2_days_parallel` of `get_attendee_events.py`:
one retrieval per attendee (sender first, then the listed attendees);
a per-attendee exception is caught and stored as `None` (`none` here), never
aborting the batch.  `fetch` abstracts the calendar service; completion
order only permutes dict insertion order, not the resulting mapping. -/
def get_all_attendee_events_2_days_parallel
    (fetch : String → Option (List Event)) (req : Request) :
    List (String × Option (List Event)) :=
  (req.From :: req.Attendees).foldl
    (fun d email => dictSet d email (fetch email)) []

/-- `has_conflict` applied to a raw fetch-result dict, as the pipeline does:
the source iterates `for event in events`, which raises `TypeError` when a
failed attendee's entry is `None`; the raise is modelled as `none`,
otherwise the computed conflict list is returned. -/
def conflicting_meetings_of_fetched (ps pe : Int) :
    List (String × Option (List Event)) → Option (List ConflictRecord)
  | [] => some []
  | (_, none) :: _ => none
  | (email, some evs) :: rest =>
    (conflicting_meetings_of_fetched ps pe rest).map
      (fun cs => conflictsOfCalendar ps pe email evs ++ cs)

/-! ### Shared concrete instances used by witnesses and counterexamples -/

/-- Snapshot of the spec's narrow-search test: busy 09:00–10:00 and
10:30–11:30 (minutes 540–600 and 630–690). -/
def narrowSnap : AttendeeEvents :=
  [("a@x", [⟨540, 600, 1, ["a@x"], "Meet1"⟩, ⟨630, 690, 1, ["a@x"], "Meet2"⟩])]

/-- A snapshot whose single busy event fills the whole proposed window
09:00–09:30, forcing the orchestrator past tiers 1 and 2. -/
def blockedSnap : AttendeeEvents :=
  [("a@x", [⟨540, 600, 1, ["a@x"], "Busy"⟩])]

/-- The proposed window 09:00–09:30, duration 30. -/
def blockedPt : ProposedTime := ⟨540, 570, 30⟩

/-! ### C9 — the overlap predicate -/

/-- C9: the overlap predicate shared by the conflict detector and the
Applier is symmetric, equals `start1 < end2 and start2 < end1`, and
touching intervals `[10:00,10:30)` / `[10:30,11:00)` (minutes 600–630 and
630–660) do not conflict; `has_conflict` records an event exactly when this
predicate holds of the proposed window and the event's interval. -/
theorem times_overlap_symm_strict_touching :
    (∀ s1 e1 s2 e2 : Int,
      times_overlap s1 e1 s2 e2 = times_overlap s2 e2 s1 e1) ∧
    (∀ s1 e1 s2 e2 : Int,
      times_overlap s1 e1 s2 e2 = true ↔ s1 < e2 ∧ s2 < e1) ∧
    times_overlap 600 630 630 660 = false ∧
    (∀ ps pe email events,
      conflictsOfCalendar ps pe email events =
        (events.filter (fun ev => decide (ev.Summary ≠ "Off Hours") &&
          times_overlap ps pe ev.StartTime ev.EndTime)).map
          (fun ev => ⟨email, ev, ev.StartTime, ev.EndTime, ev.Summary⟩)) := by
  refine ⟨fun s1 e1 s2 e2 => ?_, fun s1 e1 s2 e2 => ?_, by decide,
    fun _ _ _ _ => rfl⟩
  · simp only [times_overlap, decide_eq_decide]
    exact and_comm
  · simp [times_overlap]

/-! ### C5 — the fetch window (code bug: day incremented by zero) -/

/-- C5 (failing input): for the proposed window
`2025-07-21T09:00:00+05:30`–`2025-07-21T09:30:00+05:30`, the fetch window
handed to the calendar service ends at `23:59:59` of `2025-07-21` — the
*start day plus zero* — not of `2025-07-22` (start day plus one) as the
claim states; the source itself flags the `+ 0` as a likely defect. -/
theorem fetch_window_ends_on_start_day :
    get_attendee_events_2_days_window
        ⟨⟨2025, 7, 21⟩, "09:00:00+05:30"⟩ ⟨⟨2025, 7, 21⟩, "09:30:00+05:30"⟩ =
      ((⟨2025, 7, 21⟩, "00:00:00+05:30"), (⟨2025, 7, 21⟩, "23:59:59+05:30")) ∧
    (⟨2025, 7, 21⟩ : DateYMD) ≠ ⟨2025, 7, 22⟩ := by
  exact ⟨rfl, by decide⟩
/-! ### Dict lemmas (association-list model of Python dicts) -/

theorem find?_map_key {β γ : Type} (g : β → γ) (k : String) :
    ∀ d : List (String × β),
      List.find? (fun p => decide (p.1 = k)) (d.map (fun p => (p.1, g p.2))) =
        (List.find? (fun p => decide (p.1 = k)) d).map (fun p => (p.1, g p.2))
  | [] => rfl
  | p :: rest => by
    by_cases h : p.1 = k
    · rw [List.map_cons, List.find?_cons_of_pos _ (by simp [h]),
        List.find?_cons_of_pos _ (by simp [h])]
      rfl
    · rw [List.map_cons, List.find?_cons_of_neg _ (by simp [h]),
        List.find?_cons_of_neg _ (by simp [h]), find?_map_key g k rest]

theorem lookupD_map_value {β γ : Type} (g : β → γ) (d : List (String × β))
    (k : String) :
    lookupD (d.map (fun p => (p.1, g p.2))) k = (lookupD d k).map g := by
  unfold lookupD
  rw [find?_map_key]
  cases List.find? (fun p => decide (p.1 = k)) d <;> rfl

theorem find?_mapIf_self {β : Type} (f : β → β) (k : String) :
    ∀ d : List (String × β),
      List.find? (fun p => decide (p.1 = k))
          (d.map (fun p => if p.1 = k then (p.1, f p.2) else p)) =
        (List.find? (fun p => decide (p.1 = k)) d).map (fun p => (p.1, f p.2))
  | [] => rfl
  | p :: rest => by
    by_cases h : p.1 = k
    · rw [List.map_cons, if_pos h, List.find?_cons_of_pos _ (by simp [h]),
        List.find?_cons_of_pos _ (by simp [h])]
      rfl
    · rw [List.map_cons, if_neg h, List.find?_cons_of_neg _ (by simp [h]),
        List.find?_cons_of_neg _ (by simp [h]), find?_mapIf_self f k rest]

theorem find?_mapIf_ne {β : Type} (f : β → β) (k k' : String) (hk : k' ≠ k) :
    ∀ d : List (String × β),
      List.find? (fun p => decide (p.1 = k'))
          (d.map (fun p => if p.1 = k then (p.1, f p.2) else p)) =
        List.find? (fun p => decide (p.1 = k')) d
  | [] => rfl
  | p :: rest => by
    by_cases h : p.1 = k
    · have h2 : p.1 ≠ k' := fun hh => hk (hh.symm.trans h)
      rw [List.map_cons, if_pos h, List.find?_cons_of_neg _ (by simp [h2]),
        List.find?_cons_of_neg _ (by simp [h2]), find?_mapIf_ne f k k' hk rest]
    · by_cases h2 : p.1 = k'
      · rw [List.map_cons, if_neg h, List.find?_cons_of_pos _ (by simp [h2]),
          List.find?_cons_of_pos _ (by simp [h2])]
      · rw [List.map_cons, if_neg h, List.find?_cons_of_neg _ (by simp [h2]),
          List.find?_cons_of_neg _ (by simp [h2]), find?_mapIf_ne f k k' hk rest]

theorem any_key_iff_lookupD_isSome {β : Type} (d : List (String × β))
    (k : String) :
    d.any (fun p => decide (p.1 = k)) = true ↔ (lookupD d k).isSome = true := by
  simp [lookupD, List.any_eq_true, List.find?_isSome]

theorem lookupD_append_right {β : Type} (d : List (String × β)) (k : String)
    (v : β) (h : lookupD d k = none) :
    lookupD (d ++ [(k, v)]) k = some v := by
  induction d with
  | nil => simp [lookupD, List.find?_cons_of_pos]
  | cons p rest ih =>
    by_cases hp : p.1 = k
    · rw [lookupD, List.find?_cons_of_pos _ (by simp [hp])] at h
      simp at h
    · rw [lookupD, List.find?_cons_of_neg _ (by simp [hp])] at h
      rw [List.cons_append, lookupD, List.find?_cons_of_neg _ (by simp [hp])]
      exact ih h

theorem lookupD_dictUpdate_self (d : AttendeeEvents) (k : String)
    (f : List Event → List Event) :
    lookupD (dictUpdate d k f) k = some (f ((lookupD d k).getD [])) := by
  unfold dictUpdate
  by_cases h : d.any (fun p => decide (p.1 = k)) = true
  · rw [if_pos h]
    unfold lookupD
    rw [find?_mapIf_self]
    obtain ⟨q, hq⟩ := Option.isSome_iff_exists.mp
      ((any_key_iff_lookupD_isSome d k).mp h)
    unfold lookupD at hq
    cases hfind : List.find? (fun p => decide (p.1 = k)) d with
    | none => rw [hfind] at hq; simp at hq
    | some p => simp
  · rw [if_neg h]
    have h0 : lookupD d k = none := by
      cases h2 : lookupD d k with
      | none => rfl
      | some v =>
        exact absurd ((any_key_iff_lookupD_isSome d k).mpr (by simp [h2])) h
    rw [lookupD_append_right _ _ _ h0, h0]
    rfl

theorem lookupD_dictUpdate_ne (d : AttendeeEvents) (k k' : String)
    (hk : k' ≠ k) (f : List Event → List Event) :
    lookupD (dictUpdate d k f) k' = lookupD d k' := by
  unfold dictUpdate
  by_cases h : d.any (fun p => decide (p.1 = k)) = true
  · rw [if_pos h]
    unfold lookupD
    rw [find?_mapIf_ne f k k' hk]
  · rw [if_neg h]
    induction d with
    | nil =>
      rw [List.nil_append, lookupD,
        List.find?_cons_of_neg _ (by simp; exact fun hh => hk hh.symm)]
      rfl
    | cons p rest ih =>
      by_cases h2 : p.1 = k'
      · rw [List.cons_append, lookupD, List.find?_cons_of_pos _ (by simp [h2]),
          lookupD, List.find?_cons_of_pos _ (by simp [h2])]
      · rw [List.cons_append, lookupD, List.find?_cons_of_neg _ (by simp [h2]),
          lookupD, List.find?_cons_of_neg _ (by simp [h2])]
        exact ih (by intro hh; exact h (by simp only [List.any_cons, hh,
          Bool.or_true]))

theorem lookupD_dictSet_self (d : List (String × Option (List Event)))
    (k : String) (v : Option (List Event)) :
    lookupD (dictSet d k v) k = some v := by
  unfold dictSet
  by_cases h : d.any (fun p => decide (p.1 = k)) = true
  · rw [if_pos h]
    induction d with
    | nil => simp at h
    | cons p rest ih =>
      by_cases hp : p.1 = k
      · rw [List.map_cons, if_pos hp, lookupD,
          List.find?_cons_of_pos _ (by simp [hp])]
        rfl
      · rw [List.map_cons, if_neg hp, lookupD,
          List.find?_cons_of_neg _ (by simp [hp])]
        simp only [List.any_cons, hp] at h
        exact ih (by simpa using h)
  · rw [if_neg h]
    refine lookupD_append_right _ _ _ ?_
    cases h2 : lookupD d k with
    | none => rfl
    | some w =>
      exact absurd ((any_key_iff_lookupD_isSome d k).mpr (by simp [h2])) h

theorem lookupD_dictSet_ne (d : List (String × Option (List Event)))
    (k k' : String) (hk : k' ≠ k) (v : Option (List Event)) :
    lookupD (dictSet d k v) k' = lookupD d k' := by
  unfold dictSet
  by_cases h : d.any (fun p => decide (p.1 = k)) = true
  · rw [if_pos h]
    unfold lookupD
    rw [show (fun p : String × Option (List Event) =>
        if p.1 = k then (p.1, v) else p) =
      (fun p : String × Option (List Event) =>
        if p.1 = k then (p.1, (fun _ => v) p.2) else p) from rfl]
    rw [find?_mapIf_ne (fun _ => v) k k' hk]
  · rw [if_neg h]
    induction d with
    | nil =>
      rw [List.nil_append, lookupD,
        List.find?_cons_of_neg _ (by simp; exact fun hh => hk hh.symm)]
      rfl
    | cons p rest ih =>
      by_cases h2 : p.1 = k'
      · rw [List.cons_append, lookupD, List.find?_cons_of_pos _ (by simp [h2]),
          lookupD, List.find?_cons_of_pos _ (by simp [h2])]
      · rw [List.cons_append, lookupD, List.find?_cons_of_neg _ (by simp [h2]),
          lookupD, List.find?_cons_of_neg _ (by simp [h2])]
        exact ih (by intro hh; exact h (by simp only [List.any_cons, hh,
          Bool.or_true]))

/-! ### C6 — per-attendee fetch failure -/

theorem lookupD_foldl_dictSet_not_mem (fetch : String → Option (List Event))
    (e : String) :
    ∀ (l : List String) (d : List (String × Option (List Event))), e ∉ l →
      lookupD (l.foldl (fun d email => dictSet d email (fetch email)) d) e =
        lookupD d e
  | [], _, _ => rfl
  | a :: l, d, he => by
    rw [List.foldl_cons,
      lookupD_foldl_dictSet_not_mem fetch e l _
        (fun h => he (List.mem_cons_of_mem a h)),
      lookupD_dictSet_ne _ _ _
        (fun h => he (by rw [h]; exact List.mem_cons_self a l)) _]

theorem lookupD_foldl_dictSet_mem (fetch : String → Option (List Event))
    (e : String) :
    ∀ (l : List String) (d : List (String × Option (List Event))), e ∈ l →
      lookupD (l.foldl (fun d email => dictSet d email (fetch email)) d) e =
        some (fetch e)
  | [], _, he => absurd he (List.not_mem_nil e)
  | a :: l, d, he => by
    rw [List.foldl_cons]
    by_cases hel : e ∈ l
    · exact lookupD_foldl_dictSet_mem fetch e l _ hel
    · have hea : e = a := by
        cases List.mem_cons.mp he with
        | inl h => exact h
        | inr h => exact absurd h hel
      rw [lookupD_foldl_dictSet_not_mem fetch e l _ hel, hea,
        lookupD_dictSet_self]

/-- C6 (amended): a failed per-attendee retrieval is recorded as an explicit
`none` marker in the fetch dict without aborting the batch (every requested
attendee's entry is exactly the outcome of their own fetch), but the
downstream conflict scan does *not* treat an absent calendar as empty: on
any dict containing a `none` calendar it raises (returns `none`), and it
agrees with `has_conflict`'s conflict list only when every calendar is
present. -/
theorem fetch_failure_isolated_downstream_raises :
    (∀ (fetch : String → Option (List Event)) (req : Request) (e : String),
      e ∈ req.From :: req.Attendees →
      lookupD (get_all_attendee_events_2_days_parallel fetch req) e =
        some (fetch e)) ∧
    (∀ (ps pe : Int) (d : List (String × Option (List Event))),
      (∃ p ∈ d, p.2 = none) →
      conflicting_meetings_of_fetched ps pe d = none) ∧
    (∀ (ps pe : Int) (snap : AttendeeEvents),
      conflicting_meetings_of_fetched ps pe
          (snap.map (fun p => (p.1, some p.2))) =
        some (conflicting_meetings ps pe snap)) := by
  refine ⟨fun fetch req e he => ?_, fun ps pe d hd => ?_, fun ps pe snap => ?_⟩
  · exact lookupD_foldl_dictSet_mem fetch e _ [] he
  · induction d with
    | nil => obtain ⟨p, hp, _⟩ := hd; exact absurd hp (List.not_mem_nil p)
    | cons p rest ih =>
      obtain ⟨q, hq, hqv⟩ := hd
      match p, hq with
      | (email, none), _ => rfl
      | (email, some evs), hq =>
        cases List.mem_cons.mp hq with
        | inl h => exact absurd (congrArg Prod.snd h) (by simp [hqv])
        | inr h =>
          rw [conflicting_meetings_of_fetched, ih ⟨q, h, hqv⟩]
          rfl
  · induction snap with
    | nil => rfl
    | cons p rest ih =>
      rw [List.map_cons, conflicting_meetings_of_fetched, ih]
      rfl

/-- The fetch function of the C6 scenario: attendee `b@x`'s calendar
service call fails. -/
def failFetch : String → Option (List Event) :=
  fun e => if e = "b@x" then none else some []

/-- A request from `a@x` with one listed attendee `b@x`. -/
def twoReq : Request := ⟨"a@x", ["b@x"], "Sync"⟩

/-- C6 (counterexample to the claim as stated): with `b@x`'s retrieval
failed, the fetch dict holds the `none` marker and the downstream conflict
scan on it raises (`none`) instead of treating the absent calendar as an
empty event list. -/
theorem fetched_none_raises_counterexample :
    conflicting_meetings_of_fetched 540 570
        (get_all_attendee_events_2_days_parallel failFetch twoReq) = none := by
  decide

theorem fetch_failure_isolated_downstream_raises_witness :
    lookupD (get_all_attendee_events_2_days_parallel failFetch twoReq) "b@x" =
        some none ∧
    conflicting_meetings_of_fetched 540 570 [("b@x", none)] = none := by
  constructor
  · have := fetch_failure_isolated_downstream_raises.1 failFetch twoReq "b@x"
      (by simp [twoReq])
    simpa [failFetch] using this
  · exact fetch_failure_isolated_downstream_raises.2.1 540 570 [("b@x", none)]
      ⟨("b@x", none), by simp, rfl⟩

/-! ### C2 — protected events are never removed, relocated, or returned -/

theorem mem_relocate_of_protected (ps pe rs re : Int) (events : List Event)
    (ev : Event) (hev : ev ∈ events) (hoff : ev.Summary = "Off Hours") :
    ev ∈ relocate_overlapping ps pe rs re events := by
  unfold relocate_overlapping
  refine List.mem_append_left _ (List.mem_filter.mpr ⟨hev, ?_⟩)
  simp [hoff]

theorem dictUpdate_mem_mono (d : AttendeeEvents) (k : String)
    (f : List Event → List Event) (hf : ∀ l, ∀ x ∈ l, x ∈ f l)
    (n : String) (ev : Event) (h : ∃ q ∈ d, q.1 = n ∧ ev ∈ q.2) :
    ∃ q ∈ dictUpdate d k f, q.1 = n ∧ ev ∈ q.2 := by
  obtain ⟨q, hq, hqn, hqe⟩ := h
  unfold dictUpdate
  by_cases ha : d.any (fun p => decide (p.1 = k)) = true
  · rw [if_pos ha]
    by_cases hqk : q.1 = k
    · exact ⟨(q.1, f q.2), List.mem_map.mpr ⟨q, hq, by simp [hqk]⟩, hqn,
        hf _ _ hqe⟩
    · exact ⟨q, List.mem_map.mpr ⟨q, hq, by simp [hqk]⟩, hqn, hqe⟩
  · rw [if_neg ha]
    exact ⟨q, List.mem_append_left _ hq, hqn, hqe⟩

theorem insert_step_mem_mono (ps pe : Int) (req : Request) (n : String)
    (ev : Event) :
    ∀ (emails : List String) (d : AttendeeEvents),
      (∃ q ∈ d, q.1 = n ∧ ev ∈ q.2) →
      ∃ q ∈ emails.foldl (fun acc email =>
          dictUpdate acc email (fun evs =>
            if evs.any (isTriple ps pe req.Subject) then evs
            else evs ++ [new_meeting_event ps pe req])) d,
        q.1 = n ∧ ev ∈ q.2
  | [], _, h => h
  | a :: l, d, h => by
    rw [List.foldl_cons]
    refine insert_step_mem_mono ps pe req n ev l _
      (dictUpdate_mem_mono _ _ _ (fun l2 x hx => ?_) n ev h)
    by_cases hany : l2.any (isTriple ps pe req.Subject) = true
    · simpa [hany] using hx
    · simp only [hany]
      exact List.mem_append_left _ hx

/-- C2: the Applier never removes or relocates a protected (`"Off Hours"`)
event — for any decision (relocating or not) a protected event stays in its
attendee's working calendar with its original times — and the final
response calendars built by `process_scheduler_results` contain no
protected event (they are filtered out of the response rather than kept). -/
theorem protected_events_never_touched (snap : AttendeeEvents)
    (decision : Decision) (req : Request) (p : String × List Event)
    (hp : p ∈ snap) (ev : Event) (hev : ev ∈ p.2)
    (hoff : ev.Summary = "Off Hours") :
    (∃ q ∈ apply_rescheduling_to_attendee_events snap decision req,
      q.1 = p.1 ∧ ev ∈ q.2) ∧
    (∀ q ∈ process_scheduler_results snap decision req, ∀ ev2 ∈ q.2,
      ev2.Summary ≠ "Off Hours") := by
  constructor
  · unfold apply_rescheduling_to_attendee_events
    cases hps : decision.proposed_final_start with
    | none => exact ⟨p, hp, rfl, hev⟩
    | some ps =>
      cases hpe : decision.proposed_final_end with
      | none => exact ⟨p, hp, rfl, hev⟩
      | some pe =>
        have hstep1 : ∃ q ∈ reschedule_step snap decision ps pe,
            q.1 = p.1 ∧ ev ∈ q.2 := by
          unfold reschedule_step
          cases hrs : decision.conflicting_final_start with
          | none => exact ⟨p, hp, rfl, hev⟩
          | some rs =>
            cases hre : decision.conflicting_final_end with
            | none => exact ⟨p, hp, rfl, hev⟩
            | some re =>
              exact ⟨(p.1, relocate_overlapping ps pe rs re p.2),
                List.mem_map.mpr ⟨p, hp, rfl⟩, rfl,
                mem_relocate_of_protected ps pe rs re p.2 ev hev hoff⟩
        exact insert_step_mem_mono ps pe req p.1 ev _ _ hstep1
  · intro q hq ev2 hev2
    simp only [process_scheduler_results] at hq
    obtain ⟨email, _, hqe⟩ := List.mem_map.mp hq
    subst hqe
    have hev3 : ev2 ∈ List.insertionSort eventStartLE
        ((lookupD ((apply_rescheduling_to_attendee_events snap decision
          req).map (fun p => (p.1, filter_off_hours_events p.2)))
          email).getD []) := hev2
    rw [List.mem_insertionSort, lookupD_map_value] at hev3
    cases hl : lookupD (apply_rescheduling_to_attendee_events snap decision
        req) email with
    | none =>
      rw [hl] at hev3
      have hnil : ev2 ∈ ([] : List Event) := hev3
      simp at hnil
    | some l =>
      rw [hl] at hev3
      have hev4 : ev2 ∈ filter_off_hours_events l := hev3
      have := (List.mem_filter.mp hev4).2
      simpa using this

/-- A protected event occupying the proposed window 09:00–09:30. -/
def offEv : Event := ⟨540, 570, 1, ["a@x"], "Off Hours"⟩

/-- A non-protected sibling event in the same window, subject to
relocation. -/
def sibEv : Event := ⟨540, 570, 1, ["a@x"], "Standup"⟩

/-- Calendar holding both the protected event and its sibling. -/
def c2Snap : AttendeeEvents := [("a@x", [offEv, sibEv])]

/-- A relocating decision: meeting at 09:00–09:30, conflict moved to
10:00–10:30. -/
def c2Dec : Decision := ⟨some 540, some 570, some 600, some 630, "move standup"⟩

/-- Request whose sender is the only attendee. -/
def c2Req : Request := ⟨"a@x", [], "Kickoff"⟩

theorem protected_events_never_touched_witness :
    (∃ q ∈ apply_rescheduling_to_attendee_events c2Snap c2Dec c2Req,
      q.1 = "a@x" ∧ offEv ∈ q.2) ∧
    (∀ q ∈ process_scheduler_results c2Snap c2Dec c2Req, ∀ ev2 ∈ q.2,
      ev2.Summary ≠ "Off Hours") :=
  protected_events_never_touched c2Snap c2Dec c2Req ("a@x", [offEv, sibEv])
    (by simp [c2Snap]) offEv (by simp) rfl

/-! ### C3 — idempotence of the insertion step -/

theorem summary_mem_relocate (ps pe rs re : Int) (events : List Event) :
    ∀ ev2 ∈ relocate_overlapping ps pe rs re events,
      ∃ ev ∈ events, ev2.Summary = ev.Summary := by
  intro ev2 h
  unfold relocate_overlapping at h
  rcases List.mem_append.mp h with h | h
  · exact ⟨ev2, (List.mem_filter.mp h).1, rfl⟩
  · obtain ⟨ev, hev, rfl⟩ := List.mem_map.mp h
    exact ⟨ev, (List.mem_filter.mp hev).1, rfl⟩

theorem relocate_summary_fresh (subj : String) (ps pe rs re : Int)
    (l : List Event) (h : ∀ ev ∈ l, ev.Summary ≠ subj) :
    ∀ ev2 ∈ relocate_overlapping ps pe rs re l, ev2.Summary ≠ subj := by
  intro ev2 hev2
  obtain ⟨ev, hev, hs⟩ := summary_mem_relocate ps pe rs re l ev2 hev2
  rw [hs]
  exact h ev hev

theorem countP_relocate_append (ps pe rs re : Int) (l1 l2 : List Event)
    (p : Event → Bool) :
    (relocate_overlapping ps pe rs re (l1 ++ l2)).countP p =
      (relocate_overlapping ps pe rs re l1).countP p +
      (relocate_overlapping ps pe rs re l2).countP p := by
  unfold relocate_overlapping
  simp only [List.filter_append, List.map_append, List.countP_append]
  omega

theorem countP_fresh_zero (subj : String) (ps pe : Int) (l : List Event)
    (h : ∀ ev ∈ l, ev.Summary ≠ subj) :
    l.countP (isTriple ps pe subj) = 0 := by
  refine List.countP_eq_zero.mpr (fun ev hev => ?_)
  simp only [isTriple, decide_eq_true_eq, not_and]
  intro _ _
  exact h ev hev

theorem any_fresh_false (subj : String) (ps pe : Int) (l : List Event)
    (h : ∀ ev ∈ l, ev.Summary ≠ subj) :
    l.any (isTriple ps pe subj) = false := by
  rw [List.any_eq_false]
  intro ev hev
  simp only [isTriple, decide_eq_true_eq, not_and]
  intro _ _
  exact h ev hev

theorem isTriple_new_meeting (ps pe : Int) (req : Request) :
    isTriple ps pe req.Subject (new_meeting_event ps pe req) = true := by
  simp [isTriple, new_meeting_event]

theorem any_triple_iff_countP_pos (ps pe : Int) (subj : String)
    (l : List Event) :
    l.any (isTriple ps pe subj) = true ↔
      0 < l.countP (isTriple ps pe subj) := by
  rw [List.any_eq_true, List.countP_pos_iff]

theorem lookupD_insert_step_not_mem (ps pe : Int) (req : Request)
    (e : String) :
    ∀ (emails : List String) (d : AttendeeEvents), e ∉ emails →
      lookupD (emails.foldl (fun acc email =>
        dictUpdate acc email (insert_if_absent ps pe req)) d) e = lookupD d e
  | [], _, _ => rfl
  | a :: l, d, he => by
    rw [List.foldl_cons,
      lookupD_insert_step_not_mem ps pe req e l _
        (fun h => he (List.mem_cons_of_mem a h)),
      lookupD_dictUpdate_ne _ _ _
        (fun h => he (by rw [h]; exact List.mem_cons_self a l)) _]

theorem insert_if_absent_idem (ps pe : Int) (req : Request) (l : List Event) :
    insert_if_absent ps pe req (insert_if_absent ps pe req l) =
      insert_if_absent ps pe req l := by
  unfold insert_if_absent
  by_cases h : l.any (isTriple ps pe req.Subject) = true
  · simp [h]
  · rw [if_neg h,
      if_pos (by
        rw [List.any_append]
        simp [isTriple_new_meeting])]

theorem lookupD_insert_step_mem (ps pe : Int) (req : Request) (e : String) :
    ∀ (emails : List String) (d : AttendeeEvents), e ∈ emails →
      lookupD (emails.foldl (fun acc email =>
        dictUpdate acc email (insert_if_absent ps pe req)) d) e =
        some (insert_if_absent ps pe req ((lookupD d e).getD []))
  | [], _, he => absurd he (List.not_mem_nil e)
  | a :: l, d, he => by
    rw [List.foldl_cons]
    by_cases hel : e ∈ l
    · rw [lookupD_insert_step_mem ps pe req e l _ hel]
      by_cases hea : e = a
      · rw [hea, lookupD_dictUpdate_self, Option.getD_some, ← hea,
          insert_if_absent_idem]
      · rw [lookupD_dictUpdate_ne _ _ _ hea _]
    · have hea : e = a := by
        cases List.mem_cons.mp he with
        | inl h => exact h
        | inr h => exact absurd h hel
      rw [lookupD_insert_step_not_mem ps pe req e l _ hel, hea,
        lookupD_dictUpdate_self]

theorem lookupD_reschedule_step_some (snap : AttendeeEvents) (dec : Decision)
    (ps pe rs re : Int) (e : String)
    (hrs : dec.conflicting_final_start = some rs)
    (hre : dec.conflicting_final_end = some re) :
    lookupD (reschedule_step snap dec ps pe) e =
      (lookupD snap e).map (relocate_overlapping ps pe rs re) := by
  unfold reschedule_step
  rw [hrs, hre]
  exact lookupD_map_value _ _ _

theorem lookupD_reschedule_step_none (snap : AttendeeEvents) (dec : Decision)
    (ps pe : Int)
    (h : dec.conflicting_final_start = none ∨
      dec.conflicting_final_end = none) :
    reschedule_step snap dec ps pe = snap := by
  unfold reschedule_step
  rcases h with h | h
  · rw [h]
  · rw [h]
    cases dec.conflicting_final_start <;> rfl

theorem fresh_of_lookupD (snap : AttendeeEvents) (e : String) (subj : String)
    (hfresh : ∀ p ∈ snap, ∀ ev ∈ p.2, ev.Summary ≠ subj) :
    ∀ ev ∈ (lookupD snap e).getD [], ev.Summary ≠ subj := by
  intro ev hev
  cases hl : lookupD snap e with
  | none => rw [hl] at hev; simp at hev
  | some l =>
    rw [hl, Option.getD_some] at hev
    unfold lookupD at hl
    cases hf : snap.find? (fun p => decide (p.1 = e)) with
    | none => rw [hf] at hl; simp at hl
    | some q =>
      rw [hf] at hl
      have hlq : some q.2 = some l := hl
      have hq := List.mem_of_find?_eq_some hf
      have hl2 : l = q.2 := by injection hlq with h2; exact h2.symm
      exact hfresh q hq ev (hl2 ▸ hev)

theorem countP_insert_if_absent_eq_one (ps pe : Int) (req : Request)
    (l : List Event) (h : l.countP (isTriple ps pe req.Subject) ≤ 1) :
    (insert_if_absent ps pe req l).countP (isTriple ps pe req.Subject) = 1 := by
  unfold insert_if_absent
  by_cases ha : l.any (isTriple ps pe req.Subject) = true
  · rw [if_pos ha]
    have := (any_triple_iff_countP_pos ps pe req.Subject l).mp ha
    omega
  · rw [if_neg ha]
    have h0 : l.countP (isTriple ps pe req.Subject) = 0 := by
      by_contra h1
      exact ha ((any_triple_iff_countP_pos ps pe req.Subject l).mpr (by omega))
    rw [List.countP_append, h0]
    simp [isTriple_new_meeting]

/-- C3 (amended): if the proposed final times are present and no event of
the starting snapshot already carries the meeting's subject as summary,
then after applying the decision once — and equally after applying the very
same decision a second time — every listed attendee's working calendar
contains exactly one event with the new meeting's (start, end, summary);
the insertion step never adds a second identical copy.  (Without the
freshness hypothesis the claim fails: pre-existing identical duplicates
survive the Applier, see the counterexample.) -/
theorem apply_twice_unique_meeting (snap : AttendeeEvents) (dec : Decision)
    (req : Request) (ps pe : Int)
    (hps : dec.proposed_final_start = some ps)
    (hpe : dec.proposed_final_end = some pe)
    (hfresh : ∀ p ∈ snap, ∀ ev ∈ p.2, ev.Summary ≠ req.Subject) :
    ∀ e ∈ all_attendee_emails req,
      ((lookupD (apply_rescheduling_to_attendee_events snap dec req) e).getD
          []).countP (isTriple ps pe req.Subject) = 1 ∧
      ((lookupD (apply_rescheduling_to_attendee_events
          (apply_rescheduling_to_attendee_events snap dec req) dec req)
          e).getD []).countP (isTriple ps pe req.Subject) = 1 := by
  intro e he
  have happly : ∀ s : AttendeeEvents,
      apply_rescheduling_to_attendee_events s dec req =
        insert_step ps pe req (reschedule_step s dec ps pe) := by
    intro s
    unfold apply_rescheduling_to_attendee_events
    rw [hps, hpe]
  have hfresh0 : ∀ ev ∈ (lookupD snap e).getD [], ev.Summary ≠ req.Subject :=
    fresh_of_lookupD snap e req.Subject hfresh
  have hfresh1 : ∀ ev ∈ (lookupD (reschedule_step snap dec ps pe) e).getD [],
      ev.Summary ≠ req.Subject := by
    cases hrs : dec.conflicting_final_start with
    | none =>
      rw [lookupD_reschedule_step_none snap dec ps pe (Or.inl hrs)]
      exact hfresh0
    | some rs =>
      cases hre : dec.conflicting_final_end with
      | none =>
        rw [lookupD_reschedule_step_none snap dec ps pe (Or.inr hre)]
        exact hfresh0
      | some re =>
        rw [lookupD_reschedule_step_some snap dec ps pe rs re e hrs hre]
        cases hl : lookupD snap e with
        | none => simp
        | some l =>
          intro ev hev
          have hev2 : ev ∈ relocate_overlapping ps pe rs re l := hev
          refine relocate_summary_fresh req.Subject ps pe rs re l ?_ ev hev2
          intro x hx
          exact hfresh0 x (by rw [hl]; exact hx)
  have hlook1 : lookupD (apply_rescheduling_to_attendee_events snap dec req) e
      = some (insert_if_absent ps pe req
          ((lookupD (reschedule_step snap dec ps pe) e).getD [])) := by
    rw [happly snap]
    exact lookupD_insert_step_mem ps pe req e _ _ he
  have hcount0 : ((lookupD (reschedule_step snap dec ps pe) e).getD
      []).countP (isTriple ps pe req.Subject) = 0 :=
    countP_fresh_zero req.Subject ps pe _ hfresh1
  have hpart1 : ((lookupD (apply_rescheduling_to_attendee_events snap dec
      req) e).getD []).countP (isTriple ps pe req.Subject) = 1 := by
    rw [hlook1, Option.getD_some]
    exact countP_insert_if_absent_eq_one ps pe req _ (by omega)
  refine ⟨hpart1, ?_⟩
  have hlook2 : lookupD (apply_rescheduling_to_attendee_events
      (apply_rescheduling_to_attendee_events snap dec req) dec req) e
      = some (insert_if_absent ps pe req
          ((lookupD (reschedule_step
            (apply_rescheduling_to_attendee_events snap dec req)
            dec ps pe) e).getD [])) := by
    rw [happly (apply_rescheduling_to_attendee_events snap dec req)]
    exact lookupD_insert_step_mem ps pe req e _ _ he
  rw [hlook2, Option.getD_some]
  refine countP_insert_if_absent_eq_one ps pe req _ ?_
  cases hrs : dec.conflicting_final_start with
  | none =>
    rw [lookupD_reschedule_step_none _ dec ps pe (Or.inl hrs)]
    omega
  | some rs =>
    cases hre : dec.conflicting_final_end with
    | none =>
      rw [lookupD_reschedule_step_none _ dec ps pe (Or.inr hre)]
      omega
    | some re =>
      rw [lookupD_reschedule_step_some _ dec ps pe rs re e hrs hre, hlook1]
      have hmap : ((Option.map (relocate_overlapping ps pe rs re)
          (some (insert_if_absent ps pe req ((lookupD (reschedule_step snap
            dec ps pe) e).getD [])))).getD []) =
          relocate_overlapping ps pe rs re (insert_if_absent ps pe req
            ((lookupD (reschedule_step snap dec ps pe) e).getD [])) := rfl
      rw [hmap]
      have hins : insert_if_absent ps pe req ((lookupD (reschedule_step snap
          dec ps pe) e).getD []) = ((lookupD (reschedule_step snap dec
          ps pe) e).getD []) ++ [new_meeting_event ps pe req] := by
        unfold insert_if_absent
        rw [if_neg (by rw [any_fresh_false req.Subject ps pe _ hfresh1]; simp)]
      rw [hins, countP_relocate_append,
        countP_fresh_zero req.Subject ps pe _
          (relocate_summary_fresh req.Subject ps pe rs re _ hfresh1)]
      have hlen : (relocate_overlapping ps pe rs re [new_meeting_event ps pe
          req]).countP (isTriple ps pe req.Subject) ≤ 1 := by
        unfold relocate_overlapping
        by_cases hb : (times_overlap (new_meeting_event ps pe req).StartTime
            (new_meeting_event ps pe req).EndTime ps pe &&
            decide ((new_meeting_event ps pe req).Summary ≠ "Off Hours"))
            = true
        · simp only [List.filter_cons, List.filter_nil, hb,
            Bool.not_true, List.map_cons, List.map_nil]
          simp [List.countP_cons]
          split <;> omega
        · simp only [List.filter_cons, List.filter_nil, hb,
            Bool.not_false, List.map_nil]
          simp [List.countP_cons, hb]
          split <;> omega
      omega

/-- An event identical to the meeting the C3 decision inserts. -/
def dupEv : Event := ⟨540, 570, 1, ["a@x"], "Sync"⟩

/-- A calendar already holding two identical copies of that event. -/
def dupSnap : AttendeeEvents := [("a@x", [dupEv, dupEv])]

/-- Request whose subject collides with the pre-existing duplicates. -/
def dupReq : Request := ⟨"a@x", [], "Sync"⟩

/-- A non-relocating decision for the window those duplicates occupy. -/
def dupDec : Decision := ⟨some 540, some 570, none, none, "r"⟩

/-- C3 (counterexample to the claim as stated): applying the same decision
twice leaves *two* events with identical (start, end, summary) in the
attendee's calendar — the Applier never deduplicates pre-existing copies,
so neither "exactly one instance" nor the global no-duplicates invariant
holds on arbitrary snapshots. -/
theorem apply_twice_duplicate_counterexample :
    ((lookupD (apply_rescheduling_to_attendee_events
        (apply_rescheduling_to_attendee_events dupSnap dupDec dupReq)
        dupDec dupReq) "a@x").getD []).countP (isTriple 540 570 "Sync")
      = 2 := by
  decide

/-- A snapshot whose only event does not carry the new meeting's subject. -/
def freshSnap : AttendeeEvents := [("a@x", [⟨540, 600, 1, ["a@x"], "Busy"⟩])]

/-- Request for the C3 witness scenario. -/
def freshReq : Request := ⟨"a@x", ["b@x"], "Kickoff"⟩

/-- Relocating decision for the C3 witness scenario. -/
def freshDec : Decision := ⟨some 540, some 570, some 600, some 630, "move"⟩

theorem apply_twice_unique_meeting_witness :
    ((lookupD (apply_rescheduling_to_attendee_events freshSnap freshDec
        freshReq) "a@x").getD []).countP (isTriple 540 570 "Kickoff") = 1 ∧
    ((lookupD (apply_rescheduling_to_attendee_events
        (apply_rescheduling_to_attendee_events freshSnap freshDec freshReq)
        freshDec freshReq) "a@x").getD []).countP (isTriple 540 570
        "Kickoff") = 1 :=
  apply_twice_unique_meeting freshSnap freshDec freshReq 540 570 rfl rfl
    (by decide) "a@x" (by decide)

/-! ### C10 — termination of the broad scan loop -/

theorem broadNextEventStart_gt (d endTime current : Int)
    (events : List BroadEvent) (h : current < endTime) :
    current < broadNextEventStart d endTime current events := by
  unfold broadNextEventStart
  suffices hgen : ∀ (l : List BroadEvent) (acc : Int), current < acc →
      current < l.foldl (fun acc ev =>
        if current < ev.eend ∧ current + d > ev.estart then
          (if ev.eend > current then min acc ev.eend else acc)
        else acc) acc by
    exact hgen events endTime h
  intro l
  induction l with
  | nil => intro acc hacc; exact hacc
  | cons ev rest ih =>
    intro acc hacc
    rw [List.foldl_cons]
    refine ih _ ?_
    by_cases h1 : current < ev.eend ∧ current + d > ev.estart
    · rw [if_pos h1]
      by_cases h2 : ev.eend > current
      · rw [if_pos h2]
        exact lt_min hacc h2
      · rw [if_neg h2]; exact hacc
    · rw [if_neg h1]; exact hacc

theorem broadLoop_isSome (d endTime : Int) (events : List BroadEvent) :
    ∀ (fuel : Nat) (current : Int) (acc : List (Int × Int)),
      (endTime - current).toNat < fuel →
      (broadLoop d endTime events fuel current acc).isSome = true := by
  intro fuel
  induction fuel with
  | zero => intro current acc h; omega
  | succ n ih =>
    intro current acc h
    rw [broadLoop]
    by_cases hc : current < endTime
    · rw [if_pos hc]
      by_cases hcf : broadConflicts d current events = true
      · rw [if_pos hcf]
        refine ih _ _ ?_
        have := broadNextEventStart_gt d endTime current events hc
        omega
      · rw [if_neg hcf]
        refine ih _ _ ?_
        omega
    · rw [if_neg hc]
      rfl

theorem find_free_slots_isSome (d : Int) (snap : AttendeeEvents)
    (hne : ∃ p ∈ snap, ∃ ev ∈ p.2, ev.Summary ≠ "Off Hours") :
    (find_free_slots d snap).isSome = true := by
  have hmem : ∃ b : BroadEvent, b ∈ all_events_broad snap := by
    obtain ⟨p, hp, ev, hev, hoff⟩ := hne
    exact ⟨⟨ev.StartTime, ev.EndTime, p.1⟩, List.mem_flatMap.mpr
      ⟨p, hp, List.mem_map.mpr ⟨ev, List.mem_filter.mpr
        ⟨hev, by simpa using hoff⟩, rfl⟩⟩⟩
  unfold find_free_slots
  cases hs : List.insertionSort broadLE (all_events_broad snap) with
  | nil =>
    obtain ⟨b, hb⟩ := hmem
    rw [← List.mem_insertionSort (r := broadLE), hs] at hb
    simp at hb
  | cons e0 rest =>
    have hsome := broadLoop_isSome d (nineAMofDay e0.estart + 2 * 1440)
      (e0 :: rest)
      ((nineAMofDay e0.estart + 2 * 1440 - nineAMofDay e0.estart).toNat + 1)
      (nineAMofDay e0.estart) [] (by omega)
    cases hres : broadLoop d (nineAMofDay e0.estart + 2 * 1440) (e0 :: rest)
        ((nineAMofDay e0.estart + 2 * 1440 - nineAMofDay e0.estart).toNat
          + 1) (nineAMofDay e0.estart) [] with
    | none => rw [hres] at hsome; simp at hsome
    | some out =>
      show (Option.map (fun acc => List.take 5 acc)
        (broadLoop d (nineAMofDay e0.estart + 2 * 1440) (e0 :: rest)
          ((nineAMofDay e0.estart + 2 * 1440 - nineAMofDay e0.estart).toNat
            + 1) (nineAMofDay e0.estart) [])).isSome = true
      rw [hres]
      rfl

/-- C10: for every snapshot holding at least one non-protected event and
every positive duration, the scan loop of `find_free_slots` terminates
normally (the iteration budget is never exhausted, so the function returns
a result), because each iteration strictly advances the cursor: on a
conflict it jumps to a conflicting event's strictly later end
(`broadNextEventStart` exceeds the cursor whenever the loop guard holds),
otherwise it advances by the 30-minute stride. -/
theorem broad_scan_terminates (d : Int) (snap : AttendeeEvents)
    (hne : ∃ p ∈ snap, ∃ ev ∈ p.2, ev.Summary ≠ "Off Hours")
    (hd : 0 < d) :
    (find_free_slots d snap).isSome = true ∧
    (∀ endTime current : Int, ∀ events : List BroadEvent,
      current < endTime →
      current < broadNextEventStart d endTime current events) :=
  ⟨find_free_slots_isSome d snap hne,
    fun endTime current events h =>
      broadNextEventStart_gt d endTime current events h⟩

theorem broad_scan_terminates_witness :
    (find_free_slots 30 blockedSnap).isSome = true :=
  (broad_scan_terminates 30 blockedSnap
    ⟨("a@x", [⟨540, 600, 1, ["a@x"], "Busy"⟩]), by simp [blockedSnap],
      ⟨540, 600, 1, ["a@x"], "Busy"⟩, by simp, by simp⟩
    (by omega)).1

/-! ### C8 — broad search returns at most 5 safe candidates -/

theorem broadLoop_safe (d endTime : Int) (events : List BroadEvent) :
    ∀ (fuel : Nat) (current : Int) (acc out : List (Int × Int)),
      broadLoop d endTime events fuel current acc = some out →
      (∀ x ∈ acc, x.2 = x.1 + d ∧
        ∀ ev ∈ events, ¬(x.1 < ev.eend ∧ x.1 + d > ev.estart)) →
      ∀ x ∈ out, x.2 = x.1 + d ∧
        ∀ ev ∈ events, ¬(x.1 < ev.eend ∧ x.1 + d > ev.estart) := by
  intro fuel
  induction fuel with
  | zero =>
    intro current acc out h hacc
    rw [broadLoop] at h
    by_cases hc : current < endTime
    · rw [if_pos hc] at h; cases h
    · rw [if_neg hc] at h
      injection h with h2
      exact h2 ▸ hacc
  | succ n ih =>
    intro current acc out h hacc
    rw [broadLoop] at h
    by_cases hc : current < endTime
    · rw [if_pos hc] at h
      by_cases hcf : broadConflicts d current events = true
      · rw [if_pos hcf] at h
        exact ih _ _ _ h hacc
      · rw [if_neg hcf] at h
        by_cases hroom : broadNextConflict endTime current events ≥
            current + d
        · rw [if_pos hroom] at h
          refine ih _ _ _ h ?_
          intro x hx
          rcases List.mem_append.mp hx with hx | hx
          · exact hacc x hx
          · have hx2 : x = (current, current + d) := by
              cases hx with
              | head => rfl
              | tail _ hmem => exact absurd hmem (List.not_mem_nil x)
            subst hx2
            refine ⟨rfl, fun ev hev hover => ?_⟩
            have : broadConflicts d current events = true := by
              unfold broadConflicts
              exact List.any_eq_true.mpr ⟨ev, hev, by
                simp only [decide_eq_true_eq]
                exact ⟨hover.1, hover.2⟩⟩
            exact hcf this
        · rw [if_neg hroom] at h
          exact ih _ _ _ h hacc
    · rw [if_neg hc] at h
      injection h with h2
      exact h2 ▸ hacc

/-- C8: whenever the broad candidate search returns (it raises on a
snapshot with no non-protected event, see the scan-termination theorem),
it returns at most 5 candidate slots, each of exactly the requested
duration, and no candidate `[s, s + d)` overlaps any non-protected event of
any attendee. -/
theorem find_free_slots_cap_and_safe (d : Int) (snap : AttendeeEvents)
    (slots : List (Int × Int)) (h : find_free_slots d snap = some slots) :
    slots.length ≤ 5 ∧
    ∀ se ∈ slots, se.2 = se.1 + d ∧
      ∀ p ∈ snap, ∀ ev ∈ p.2, ev.Summary ≠ "Off Hours" →
        ¬(ev.StartTime < se.1 + d ∧ se.1 < ev.EndTime) := by
  unfold find_free_slots at h
  cases hs : List.insertionSort broadLE (all_events_broad snap) with
  | nil => rw [hs] at h; cases h
  | cons e0 rest =>
    rw [hs] at h
    have h2 : Option.map (fun acc => List.take 5 acc)
        (broadLoop d (nineAMofDay e0.estart + 2 * 1440) (e0 :: rest)
          ((nineAMofDay e0.estart + 2 * 1440 - nineAMofDay e0.estart).toNat
            + 1) (nineAMofDay e0.estart) []) = some slots := h
    cases hloop : broadLoop d (nineAMofDay e0.estart + 2 * 1440) (e0 :: rest)
        ((nineAMofDay e0.estart + 2 * 1440 - nineAMofDay e0.estart).toNat
          + 1) (nineAMofDay e0.estart) [] with
    | none => rw [hloop] at h2; cases h2
    | some out =>
      rw [hloop] at h2
      have hslots : slots = out.take 5 := by
        injection h2 with h3
        exact h3.symm
      subst hslots
      have hsafe := broadLoop_safe d (nineAMofDay e0.estart + 2 * 1440)
        (e0 :: rest) _ _ _ _ hloop (by intro x hx; simp at hx)
      refine ⟨by simpa using List.length_take_le 5 out, ?_⟩
      intro se hse
      obtain ⟨hdur, hover⟩ := hsafe se (List.mem_of_mem_take hse)
      refine ⟨hdur, fun p hp ev hev hoff hcontra => ?_⟩
      have hbe : (⟨ev.StartTime, ev.EndTime, p.1⟩ : BroadEvent) ∈
          e0 :: rest := by
        rw [← hs, List.mem_insertionSort]
        exact List.mem_flatMap.mpr ⟨p, hp, List.mem_map.mpr
          ⟨ev, List.mem_filter.mpr ⟨hev, by simpa using hoff⟩, rfl⟩⟩
      exact hover _ hbe ⟨hcontra.2, hcontra.1⟩

set_option maxRecDepth 40000 in
theorem find_free_slots_cap_and_safe_witness :
    ([((600 : Int), (630 : Int)), (630, 660), (660, 690), (690, 720),
        (720, 750)].length ≤ 5) ∧
    ∀ se ∈ [((600 : Int), (630 : Int)), (630, 660), (660, 690), (690, 720),
        (720, 750)], se.2 = se.1 + 30 ∧
      ∀ p ∈ blockedSnap, ∀ ev ∈ p.2, ev.Summary ≠ "Off Hours" →
        ¬(ev.StartTime < se.1 + 30 ∧ se.1 < ev.EndTime) :=
  find_free_slots_cap_and_safe 30 blockedSnap _ (by decide)

/-! ### C7 — the four-tier orchestrator -/

theorem exists_nonprot_of_conflicts (ps pe : Int) (snap : AttendeeEvents)
    (h : conflicting_meetings ps pe snap ≠ []) :
    ∃ p ∈ snap, ∃ ev ∈ p.2, ev.Summary ≠ "Off Hours" := by
  obtain ⟨r, hr⟩ := List.exists_mem_of_ne_nil _ h
  obtain ⟨p, hp, hr2⟩ := List.mem_flatMap.mp hr
  unfold conflictsOfCalendar at hr2
  obtain ⟨ev, hev, -⟩ := List.mem_map.mp hr2
  have hf := List.mem_filter.mp hev
  refine ⟨p, hp, ev, hf.1, ?_⟩
  have hb := hf.2
  simp only [Bool.and_eq_true, decide_eq_true_eq] at hb
  exact hb.1

theorem scheduler_no_conflicts (pt : ProposedTime) (snap : AttendeeEvents)
    (oracle : List ConflictRecord → List (Int × Int) → Option Decision)
    (hcon : conflicting_meetings pt.start_time pt.end_time snap = []) :
    intelligent_meeting_scheduler pt snap oracle =
      some (verbatimDecision pt
        "Scheduled at the start of the requested window as it was free.",
        Tier.tier1) := by
  unfold intelligent_meeting_scheduler has_conflict
  rw [hcon]
  rfl

theorem scheduler_with_conflicts (pt : ProposedTime) (snap : AttendeeEvents)
    (oracle : List ConflictRecord → List (Int × Int) → Option Decision)
    (hcon : conflicting_meetings pt.start_time pt.end_time snap ≠ []) :
    intelligent_meeting_scheduler pt snap oracle =
      match find_first_free_slot_in_window pt.start_time pt.end_time
          pt.duration snap with
      | some (s, e) =>
        some ({ proposed_final_start := some s
                proposed_final_end := some e
                conflicting_final_start := none
                conflicting_final_end := none
                decision_reason := "Scheduled in the first available slot within the requested window, avoiding a conflict." },
              Tier.tier2)
      | none =>
        match find_free_slots pt.duration snap with
        | none => none
        | some free_slots =>
          if free_slots.isEmpty then
            some (verbatimDecision pt
              "Conflict exists but no alternative slots were found.",
              Tier.tier4)
          else (oracle (conflicting_meetings pt.start_time pt.end_time snap)
            free_slots).map (fun dec => (dec, Tier.tier3)) := by
  unfold intelligent_meeting_scheduler has_conflict
  have hlen : (decide
      (0 < (conflicting_meetings pt.start_time pt.end_time snap).length)
      = false) = False := by
    simp only [decide_eq_false_iff_not, not_lt, Nat.le_zero, eq_iff_iff]
    constructor
    · intro hh
      exact absurd (List.length_eq_zero.mp hh) hcon
    · exact False.elim
  simp only [hlen, if_false]

/-- C7: the orchestrator is a pure four-way decision tree, each tier tried
at most once, in order.  Zero conflicts give the proposed window verbatim
(tier 1); otherwise a narrow-search hit gives that slot with no relocation
(tier 2); otherwise the broad search is consulted and returns (conflicts
imply a non-protected event exists): an empty candidate list gives the
proposed window verbatim (tier 4), a non-empty one delegates to the oracle
exactly once (tier 3).  In tiers 1, 2 and 4 the result is independent of
the oracle — it is never consulted there. -/
theorem scheduler_four_tiers (pt : ProposedTime) (snap : AttendeeEvents)
    (oracle : List ConflictRecord → List (Int × Int) → Option Decision) :
    (conflicting_meetings pt.start_time pt.end_time snap = [] →
      intelligent_meeting_scheduler pt snap oracle =
        some (verbatimDecision pt
          "Scheduled at the start of the requested window as it was free.",
          Tier.tier1)) ∧
    (conflicting_meetings pt.start_time pt.end_time snap ≠ [] →
      ∀ s e, find_first_free_slot_in_window pt.start_time pt.end_time
          pt.duration snap = some (s, e) →
        intelligent_meeting_scheduler pt snap oracle =
          some ({ proposed_final_start := some s
                  proposed_final_end := some e
                  conflicting_final_start := none
                  conflicting_final_end := none
                  decision_reason := "Scheduled in the first available slot within the requested window, avoiding a conflict." },
                Tier.tier2)) ∧
    (conflicting_meetings pt.start_time pt.end_time snap ≠ [] →
      find_first_free_slot_in_window pt.start_time pt.end_time pt.duration
          snap = none →
      ∃ slots, find_free_slots pt.duration snap = some slots ∧
        (slots = [] →
          intelligent_meeting_scheduler pt snap oracle =
            some (verbatimDecision pt
              "Conflict exists but no alternative slots were found.",
              Tier.tier4)) ∧
        (slots ≠ [] →
          intelligent_meeting_scheduler pt snap oracle =
            (oracle (conflicting_meetings pt.start_time pt.end_time snap)
              slots).map (fun dec => (dec, Tier.tier3)))) ∧
    ((conflicting_meetings pt.start_time pt.end_time snap = [] ∨
      (∃ se, find_first_free_slot_in_window pt.start_time pt.end_time
        pt.duration snap = some se) ∨
      find_free_slots pt.duration snap = some []) →
      ∀ oracle2, intelligent_meeting_scheduler pt snap oracle =
        intelligent_meeting_scheduler pt snap oracle2) := by
  refine ⟨fun hcon => scheduler_no_conflicts pt snap oracle hcon,
    fun hcon s e hnar => ?_, fun hcon hnar => ?_, fun hind oracle2 => ?_⟩
  · rw [scheduler_with_conflicts pt snap oracle hcon, hnar]
  · have hs := find_free_slots_isSome pt.duration snap
      (exists_nonprot_of_conflicts _ _ snap hcon)
    obtain ⟨slots, hslots⟩ := Option.isSome_iff_exists.mp hs
    refine ⟨slots, hslots, fun hnil => ?_, fun hne => ?_⟩
    · rw [scheduler_with_conflicts pt snap oracle hcon, hnar, hslots, hnil]
      rfl
    · rw [scheduler_with_conflicts pt snap oracle hcon, hnar, hslots]
      have hie : slots.isEmpty = false := by
        cases slots with
        | nil => exact absurd rfl hne
        | cons a l => rfl
      simp [hie]
  · by_cases hcon : conflicting_meetings pt.start_time pt.end_time snap = []
    · rw [scheduler_no_conflicts pt snap oracle hcon,
        scheduler_no_conflicts pt snap oracle2 hcon]
    · rcases hind with hind | ⟨se, hse⟩ | hempty
      · exact absurd hind hcon
      · rw [scheduler_with_conflicts pt snap oracle hcon,
          scheduler_with_conflicts pt snap oracle2 hcon, hse]
      · cases hnar : find_first_free_slot_in_window pt.start_time
            pt.end_time pt.duration snap with
        | some se =>
          rw [scheduler_with_conflicts pt snap oracle hcon,
            scheduler_with_conflicts pt snap oracle2 hcon, hnar]
        | none =>
          rw [scheduler_with_conflicts pt snap oracle hcon,
            scheduler_with_conflicts pt snap oracle2 hcon, hnar, hempty]
          rfl

theorem scheduler_four_tiers_witness :
    intelligent_meeting_scheduler blockedPt ([] : AttendeeEvents)
        (fun _ _ => none) =
      some (verbatimDecision blockedPt
        "Scheduled at the start of the requested window as it was free.",
        Tier.tier1) :=
  (scheduler_four_tiers blockedPt [] (fun _ _ => none)).1 rfl

/-! ### C4 — malformed oracle response -/

set_option maxRecDepth 40000 in
/-- C4 (counterexample to the claim as stated): when tier 3 is reached and
the oracle response is malformed (unparseable), the orchestrator does *not*
fall through to tier 4: the uncaught parse error aborts the whole run
(result `none`), instead of the proposed-window-verbatim decision the claim
requires. -/
theorem oracle_malformed_not_tier4_counterexample :
    intelligent_meeting_scheduler blockedPt blockedSnap (fun _ _ => none) =
      none := by
  decide

/-- C4 (amended): a malformed tier-3 oracle response is not caught by the
orchestrator: whenever tier 3 is reached, an always-malformed oracle makes
the whole run abort (`none`) — there is no tier-4 fallback and no internal
oracle retry — and the only retry unit is the whole pipeline at the request
boundary, which tries the run at most three times (`max_retries = 2`) and
returns the first success. -/
theorem oracle_malformed_crashes_retry_at_boundary (pt : ProposedTime)
    (snap : AttendeeEvents) (slots : List (Int × Int))
    (hcon : conflicting_meetings pt.start_time pt.end_time snap ≠ [])
    (hnar : find_first_free_slot_in_window pt.start_time pt.end_time
      pt.duration snap = none)
    (hslots : find_free_slots pt.duration snap = some slots)
    (hne : slots ≠ []) :
    intelligent_meeting_scheduler pt snap (fun _ _ => none) = none ∧
    ∀ run : Nat → Option (Decision × Tier),
      schedule_meeting run = (run 0).or ((run 1).or (run 2)) := by
  constructor
  · rw [scheduler_with_conflicts pt snap _ hcon, hnar, hslots]
    have hie : slots.isEmpty = false := by
      cases slots with
      | nil => exact absurd rfl hne
      | cons a l => rfl
    simp [hie]
  · intro run
    show retry_pipeline run 0 3 = (run 0).or ((run 1).or (run 2))
    rw [retry_pipeline]
    cases h0 : run 0 with
    | some r => rfl
    | none =>
      rw [retry_pipeline]
      cases h1 : run 1 with
      | some r => rfl
      | none =>
        rw [retry_pipeline]
        cases h2 : run 2 with
        | some r => rfl
        | none => rfl

set_option maxRecDepth 40000 in
theorem oracle_malformed_crashes_retry_at_boundary_witness :
    intelligent_meeting_scheduler blockedPt blockedSnap (fun _ _ => none) =
        none ∧
    ∀ run : Nat → Option (Decision × Tier),
      schedule_meeting run = (run 0).or ((run 1).or (run 2)) :=
  oracle_malformed_crashes_retry_at_boundary blockedPt blockedSnap
    [(600, 630), (630, 660), (660, 690), (690, 720), (720, 750)]
    (by decide) (by decide) (by decide) (by decide)

/-! ### C1 — narrow-search correctness -/

theorem mergeGo_start_witness :
    ∀ (l : List (Int × Int)) (cur : Int × Int), ∀ m ∈ mergeGo cur l,
      ∃ b ∈ cur :: l, b.1 = m.1 ∧ b.2 ≤ m.2
  | [], cur, m, hm => by
    rw [mergeGo] at hm
    rcases List.mem_singleton.mp hm with rfl
    exact ⟨m, List.mem_cons_self _ _, rfl, le_refl _⟩
  | y :: rest, cur, m, hm => by
    rw [mergeGo] at hm
    by_cases h : y.1 < cur.2
    · rw [if_pos h] at hm
      obtain ⟨b, hb, hb1, hb2⟩ :=
        mergeGo_start_witness rest (cur.1, max cur.2 y.2) m hm
      rcases List.mem_cons.mp hb with rfl | hb
      · exact ⟨cur, List.mem_cons_self _ _, hb1,
          le_trans (le_max_left _ _) hb2⟩
      · exact ⟨b, List.mem_cons_of_mem _ (List.mem_cons_of_mem _ hb),
          hb1, hb2⟩
    · rw [if_neg h] at hm
      rcases List.mem_cons.mp hm with rfl | hm
      · exact ⟨m, List.mem_cons_self _ _, rfl, le_refl _⟩
      · obtain ⟨b, hb, hb1, hb2⟩ := mergeGo_start_witness rest y m hm
        rcases List.mem_cons.mp hb with rfl | hb
        · exact ⟨b, List.mem_cons_of_mem _ (List.mem_cons_self _ _),
            hb1, hb2⟩
        · exact ⟨b, List.mem_cons_of_mem _ (List.mem_cons_of_mem _ hb),
            hb1, hb2⟩

theorem mergeGo_wf :
    ∀ (l : List (Int × Int)) (cur : Int × Int),
      (∀ b ∈ cur :: l, b.1 ≤ b.2) →
      ∀ m ∈ mergeGo cur l, m.1 ≤ m.2 := by
  intro l cur hwf m hm
  obtain ⟨b, hb, hb1, hb2⟩ := mergeGo_start_witness l cur m hm
  have := hwf b hb
  omega

theorem pairwise_startLE_merge_arg {cur y : Int × Int}
    {rest : List (Int × Int)}
    (h : List.Pairwise startLE (cur :: y :: rest)) :
    List.Pairwise startLE ((cur.1, max cur.2 y.2) :: rest) := by
  rcases List.pairwise_cons.mp h with ⟨hcur, htail⟩
  rcases List.pairwise_cons.mp htail with ⟨-, hrest⟩
  exact List.pairwise_cons.mpr
    ⟨fun z hz => hcur z (List.mem_cons_of_mem _ hz), hrest⟩

theorem mergeGo_covers :
    ∀ (l : List (Int × Int)) (cur : Int × Int),
      List.Pairwise startLE (cur :: l) →
      ∀ b ∈ cur :: l, ∃ m ∈ mergeGo cur l, m.1 ≤ b.1 ∧ b.2 ≤ m.2
  | [], cur, _, b, hb => by
    rcases List.mem_singleton.mp hb with rfl
    exact ⟨b, by rw [mergeGo]; exact List.mem_singleton.mpr rfl,
      le_refl _, le_refl _⟩
  | y :: rest, cur, hpw, b, hb => by
    rw [mergeGo]
    by_cases h : y.1 < cur.2
    · rw [if_pos h]
      have hpw2 := pairwise_startLE_merge_arg hpw
      rcases List.mem_cons.mp hb with rfl | hb2
      · obtain ⟨m, hm, hm1, hm2⟩ := mergeGo_covers rest
          (b.1, max b.2 y.2) hpw2 (b.1, max b.2 y.2)
          (List.mem_cons_self _ _)
        exact ⟨m, hm, hm1, le_trans (le_max_left _ _) hm2⟩
      rcases List.mem_cons.mp hb2 with rfl | hb3
      · obtain ⟨m, hm, hm1, hm2⟩ := mergeGo_covers rest
          (cur.1, max cur.2 b.2) (pairwise_startLE_merge_arg hpw)
          (cur.1, max cur.2 b.2) (List.mem_cons_self _ _)
        have hcy : cur.1 ≤ b.1 :=
          (List.pairwise_cons.mp hpw).1 b (List.mem_cons_self _ _)
        exact ⟨m, hm, le_trans hm1 hcy, le_trans (le_max_right _ _) hm2⟩
      · obtain ⟨m, hm, hm1, hm2⟩ := mergeGo_covers rest
          (cur.1, max cur.2 y.2) hpw2 b (List.mem_cons_of_mem _ hb3)
        exact ⟨m, hm, hm1, hm2⟩
    · rw [if_neg h]
      rcases List.mem_cons.mp hb with rfl | hb2
      · exact ⟨b, List.mem_cons_self _ _, le_refl _, le_refl _⟩
      · obtain ⟨m, hm, hm1, hm2⟩ := mergeGo_covers rest y
          (List.pairwise_cons.mp hpw).2 b hb2
        exact ⟨m, List.mem_cons_of_mem _ hm, hm1, hm2⟩

theorem mergeGo_points :
    ∀ (l : List (Int × Int)) (cur : Int × Int),
      List.Pairwise startLE (cur :: l) →
      ∀ m ∈ mergeGo cur l, ∀ t : Int, m.1 ≤ t → t < m.2 →
        ∃ b ∈ cur :: l, b.1 ≤ t ∧ t < b.2
  | [], cur, _, m, hm, t, ht1, ht2 => by
    rw [mergeGo] at hm
    rcases List.mem_singleton.mp hm with rfl
    exact ⟨m, List.mem_cons_self _ _, ht1, ht2⟩
  | y :: rest, cur, hpw, m, hm, t, ht1, ht2 => by
    rw [mergeGo] at hm
    by_cases h : y.1 < cur.2
    · rw [if_pos h] at hm
      obtain ⟨b, hb, hb1, hb2⟩ := mergeGo_points rest
        (cur.1, max cur.2 y.2) (pairwise_startLE_merge_arg hpw)
        m hm t ht1 ht2
      rcases List.mem_cons.mp hb with rfl | hb3
      · by_cases htc : t < cur.2
        · exact ⟨cur, List.mem_cons_self _ _, hb1, htc⟩
        · refine ⟨y, List.mem_cons_of_mem _ (List.mem_cons_self _ _),
            by omega, ?_⟩
          have hb2' : t < max cur.2 y.2 := hb2
          omega
      · exact ⟨b, List.mem_cons_of_mem _ (List.mem_cons_of_mem _ hb3),
          hb1, hb2⟩
    · rw [if_neg h] at hm
      rcases List.mem_cons.mp hm with rfl | hm2
      · exact ⟨m, List.mem_cons_self _ _, ht1, ht2⟩
      · obtain ⟨b, hb, hb1, hb2⟩ := mergeGo_points rest y
          (List.pairwise_cons.mp hpw).2 m hm2 t ht1 ht2
        exact ⟨b, List.mem_cons_of_mem _ hb, hb1, hb2⟩

theorem mergeGo_chain :
    ∀ (l : List (Int × Int)) (cur : Int × Int),
      List.Pairwise startLE (cur :: l) →
      List.Pairwise (fun a b : Int × Int => a.2 ≤ b.1) (mergeGo cur l)
  | [], cur, _ => by
    rw [mergeGo]
    exact List.pairwise_singleton _ _
  | y :: rest, cur, hpw => by
    rw [mergeGo]
    by_cases h : y.1 < cur.2
    · rw [if_pos h]
      exact mergeGo_chain rest (cur.1, max cur.2 y.2)
        (pairwise_startLE_merge_arg hpw)
    · rw [if_neg h]
      refine List.pairwise_cons.mpr ⟨fun m hm => ?_,
        mergeGo_chain rest y (List.pairwise_cons.mp hpw).2⟩
      obtain ⟨b, hb, hb1, -⟩ := mergeGo_start_witness rest y m hm
      have hyb : y.1 ≤ b.1 := by
        rcases List.mem_cons.mp hb with rfl | hb2
        · exact le_refl _
        · exact (List.pairwise_cons.mp (List.pairwise_cons.mp hpw).2).1
            b hb2
      show cur.2 ≤ m.1
      omega

theorem scanGaps_sound (ws we d : Int) :
    ∀ (l : List (Int × Int)) (lbe : Int),
      (∀ m ∈ l, m.1 ≤ m.2) →
      List.Pairwise (fun a b : Int × Int => a.2 ≤ b.1) l →
      (lbe ≤ ws ∨ ∀ m ∈ l, lbe ≤ m.2) →
      ∀ s e : Int, scanGaps ws we d lbe l = some (s, e) →
        e = s + d ∧ ws ≤ s ∧ lbe ≤ s ∧ s + d ≤ we ∧
        ∀ m ∈ l, ¬(m.1 < s + d ∧ s < m.2)
  | [], lbe, _, _, _, s, e, h => by
    rw [scanGaps] at h
    by_cases hd2 : d ≤ we - max lbe ws
    · rw [if_pos hd2] at h
      simp only [Option.some.injEq, Prod.mk.injEq] at h
      obtain ⟨hs, he⟩ := h
      subst hs
      subst he
      refine ⟨rfl, le_max_right _ _, le_max_left _ _, by omega,
        fun m hm => absurd hm (List.not_mem_nil m)⟩
    · rw [if_neg hd2] at h
      cases h
  | b :: rest, lbe, hwf, hch, h3, s, e, h => by
    rw [scanGaps] at h
    by_cases hgap : d ≤ min b.1 we - max lbe ws
    · rw [if_pos hgap] at h
      simp only [Option.some.injEq, Prod.mk.injEq] at h
      obtain ⟨hs, he⟩ := h
      subst hs
      subst he
      refine ⟨rfl, le_max_right _ _, le_max_left _ _, by omega, ?_⟩
      intro m hm
      rcases List.mem_cons.mp hm with rfl | hm2
      · omega
      · have hbm : b.2 ≤ m.1 := (List.pairwise_cons.mp hch).1 m hm2
        have hbb : b.1 ≤ b.2 := hwf b (List.mem_cons_self _ _)
        omega
    · rw [if_neg hgap] at h
      have hwf2 : ∀ m ∈ rest, m.1 ≤ m.2 :=
        fun m hm => hwf m (List.mem_cons_of_mem _ hm)
      have hch2 := (List.pairwise_cons.mp hch).2
      have h32 : b.2 ≤ ws ∨ ∀ m ∈ rest, b.2 ≤ m.2 := by
        right
        intro m hm
        have h1 := (List.pairwise_cons.mp hch).1 m hm
        have h2 := hwf2 m hm
        omega
      obtain ⟨he, hwss, hlbes, hsdwe, hall⟩ :=
        scanGaps_sound ws we d rest b.2 hwf2 hch2 h32 s e h
      refine ⟨he, hwss, ?_, hsdwe, ?_⟩
      · rcases h3 with h3 | h3
        · omega
        · have := h3 b (List.mem_cons_self _ _)
          omega
      · intro m hm
        rcases List.mem_cons.mp hm with rfl | hm2
        · omega
        · exact hall m hm2

theorem scanGaps_min (ws we d : Int) :
    ∀ (l : List (Int × Int)) (lbe : Int) (s e : Int),
      scanGaps ws we d lbe l = some (s, e) →
      ∀ t : Int, max lbe ws ≤ t → t + d ≤ we → t < s →
        ∃ m ∈ l, m.1 < t + d ∧ t < m.2
  | [], lbe, s, e, h, t, ht1, ht2, ht3 => by
    rw [scanGaps] at h
    by_cases hd2 : d ≤ we - max lbe ws
    · rw [if_pos hd2] at h
      simp only [Option.some.injEq, Prod.mk.injEq] at h
      omega
    · rw [if_neg hd2] at h
      cases h
  | b :: rest, lbe, s, e, h, t, ht1, ht2, ht3 => by
    rw [scanGaps] at h
    by_cases hgap : d ≤ min b.1 we - max lbe ws
    · rw [if_pos hgap] at h
      simp only [Option.some.injEq, Prod.mk.injEq] at h
      omega
    · rw [if_neg hgap] at h
      by_cases hbt : max b.2 ws ≤ t
      · obtain ⟨m, hm, hm1, hm2⟩ :=
          scanGaps_min ws we d rest b.2 s e h t hbt ht2 ht3
        exact ⟨m, List.mem_cons_of_mem _ hm, hm1, hm2⟩
      · refine ⟨b, List.mem_cons_self _ _, ?_, ?_⟩
        · by_contra hc
          push_neg at hc
          omega
        · omega

theorem scanGaps_none (ws we d : Int) :
    ∀ (l : List (Int × Int)) (lbe : Int),
      scanGaps ws we d lbe l = none →
      ∀ t : Int, max lbe ws ≤ t → t + d ≤ we →
        ∃ m ∈ l, m.1 < t + d ∧ t < m.2
  | [], lbe, h, t, ht1, ht2 => by
    rw [scanGaps] at h
    by_cases hd2 : d ≤ we - max lbe ws
    · rw [if_pos hd2] at h
      cases h
    · omega
  | b :: rest, lbe, h, t, ht1, ht2 => by
    rw [scanGaps] at h
    by_cases hgap : d ≤ min b.1 we - max lbe ws
    · rw [if_pos hgap] at h
      cases h
    · rw [if_neg hgap] at h
      by_cases hbt : max b.2 ws ≤ t
      · obtain ⟨m, hm, hm1, hm2⟩ :=
          scanGaps_none ws we d rest b.2 h t hbt ht2
        exact ⟨m, List.mem_cons_of_mem _ hm, hm1, hm2⟩
      · refine ⟨b, List.mem_cons_self _ _, ?_, ?_⟩
        · by_contra hc
          push_neg at hc
          omega
        · omega

theorem mem_busy_times (snap : AttendeeEvents) (b : Int × Int) :
    b ∈ busy_times snap ↔
      ∃ p ∈ snap, ∃ ev ∈ p.2, ev.Summary ≠ "Off Hours" ∧
        ev.StartTime = b.1 ∧ ev.EndTime = b.2 := by
  unfold busy_times
  rw [List.mem_flatMap]
  constructor
  · rintro ⟨p, hp, hb⟩
    obtain ⟨ev, hev, hevb⟩ := List.mem_map.mp hb
    have hf := List.mem_filter.mp hev
    refine ⟨p, hp, ev, hf.1, by simpa using hf.2, ?_, ?_⟩
    · rw [← hevb]
    · rw [← hevb]
  · rintro ⟨p, hp, ev, hev, hoff, h1, h2⟩
    refine ⟨p, hp, List.mem_map.mpr ⟨ev,
      List.mem_filter.mpr ⟨hev, by simpa using hoff⟩, ?_⟩⟩
    cases b with
    | mk b1 b2 =>
      simp only at h1 h2
      rw [h1, h2]

theorem overlap_merge_orig (y : Int × Int) (ys : List (Int × Int))
    (hpw : List.Pairwise startLE (y :: ys))
    (hwf : ∀ b ∈ y :: ys, b.1 ≤ b.2) (t d : Int) (hd : 0 < d)
    (m : Int × Int) (hm : m ∈ mergeGo y ys)
    (hov : m.1 < t + d ∧ t < m.2) :
    ∃ b ∈ y :: ys, b.1 < t + d ∧ t < b.2 := by
  by_cases hmm : m.1 < m.2
  · obtain ⟨b, hb, hb1, hb2⟩ := mergeGo_points ys y hpw m hm
      (max t m.1) (le_max_right _ _) (by omega)
    exact ⟨b, hb, by omega, by omega⟩
  · have hwfm : m.1 ≤ m.2 := mergeGo_wf ys y hwf m hm
    obtain ⟨b, hb, hb1, hb2⟩ := mergeGo_start_witness ys y m hm
    have := hwf b hb
    exact ⟨b, hb, by omega, by omega⟩

theorem narrow_sound (ws we d : Int) (snap : AttendeeEvents)
    (hwf : ∀ p ∈ snap, ∀ ev ∈ p.2, ev.StartTime ≤ ev.EndTime) (hd : 0 < d)
    (s e : Int)
    (h : find_first_free_slot_in_window ws we d snap = some (s, e)) :
    e = s + d ∧ ws ≤ s ∧ e ≤ we ∧
    (∀ p ∈ snap, ∀ ev ∈ p.2, ev.Summary ≠ "Off Hours" →
      ¬(ev.StartTime < e ∧ s < ev.EndTime)) ∧
    (∀ t : Int, ws ≤ t → t + d ≤ we → t < s →
      ∃ p ∈ snap, ∃ ev ∈ p.2, ev.Summary ≠ "Off Hours" ∧
        ev.StartTime < t + d ∧ t < ev.EndTime) := by
  unfold find_first_free_slot_in_window at h
  cases hbsy : busy_times snap with
  | nil =>
    rw [hbsy] at h
    have h2 : (if ws + d ≤ we then some (ws, ws + d) else none) =
        some (s, e) := h
    by_cases hfit : ws + d ≤ we
    · rw [if_pos hfit] at h2
      simp only [Option.some.injEq, Prod.mk.injEq] at h2
      obtain ⟨hs, he⟩ := h2
      subst hs
      subst he
      refine ⟨rfl, le_refl _, hfit, ?_, ?_⟩
      · intro p hp ev hev hoff _
        have : (ev.StartTime, ev.EndTime) ∈ busy_times snap :=
          (mem_busy_times snap _).mpr ⟨p, hp, ev, hev, hoff, rfl, rfl⟩
        rw [hbsy] at this
        exact absurd this (List.not_mem_nil _)
      · intro t ht1 _ ht3
        omega
    · rw [if_neg hfit] at h2
      cases h2
  | cons x rest =>
    rw [hbsy] at h
    have h2 : scanGaps ws we d ws
        (mergeIntervals (List.insertionSort startLE (x :: rest))) =
        some (s, e) := h
    have hmemSB : ∀ b : Int × Int,
        b ∈ List.insertionSort startLE (x :: rest) ↔
          b ∈ busy_times snap := by
      intro b
      rw [List.mem_insertionSort, hbsy]
    have hpwSB : List.Pairwise startLE
        (List.insertionSort startLE (x :: rest)) :=
      List.sorted_insertionSort startLE (x :: rest)
    have hwfSB : ∀ b ∈ List.insertionSort startLE (x :: rest),
        b.1 ≤ b.2 := by
      intro b hb
      obtain ⟨p, hp, ev, hev, hoff, hb1, hb2⟩ :=
        (mem_busy_times snap b).mp ((hmemSB b).mp hb)
      have := hwf p hp ev hev
      omega
    cases hSB : List.insertionSort startLE (x :: rest) with
    | nil =>
      have hx : x ∈ List.insertionSort startLE (x :: rest) := by
        rw [List.mem_insertionSort]
        exact List.mem_cons_self _ _
      rw [hSB] at hx
      exact absurd hx (List.not_mem_nil x)
    | cons y ys =>
      rw [hSB] at h2 hpwSB hwfSB
      have hmemYS : ∀ b : Int × Int, b ∈ y :: ys ↔ b ∈ busy_times snap := by
        intro b
        rw [← hSB]
        exact hmemSB b
      have h3 : scanGaps ws we d ws (mergeGo y ys) = some (s, e) := h2
      have hMwf : ∀ m ∈ mergeGo y ys, m.1 ≤ m.2 := mergeGo_wf ys y hwfSB
      have hMch := mergeGo_chain ys y hpwSB
      obtain ⟨he, hwss, -, hsdwe, hall⟩ := scanGaps_sound ws we d
        (mergeGo y ys) ws hMwf hMch (Or.inl (le_refl ws)) s e h3
      refine ⟨he, hwss, by omega, ?_, ?_⟩
      · intro p hp ev hev hoff hcontra
        have hbmem : (ev.StartTime, ev.EndTime) ∈ y :: ys :=
          (hmemYS _).mpr ((mem_busy_times snap _).mpr
            ⟨p, hp, ev, hev, hoff, rfl, rfl⟩)
        obtain ⟨m, hm, hm1, hm2⟩ := mergeGo_covers ys y hpwSB _ hbmem
        have hm1' : m.1 ≤ ev.StartTime := hm1
        have hm2' : ev.EndTime ≤ m.2 := hm2
        exact hall m hm ⟨by omega, by omega⟩
      · intro t htw htd hts
        obtain ⟨m, hm, hm1, hm2⟩ := scanGaps_min ws we d (mergeGo y ys) ws
          s e h3 t (by omega) htd hts
        obtain ⟨b, hb, hb1, hb2⟩ := overlap_merge_orig y ys hpwSB hwfSB t d
          hd m hm ⟨hm1, hm2⟩
        obtain ⟨p, hp, ev, hev, hoff, hv1, hv2⟩ :=
          (mem_busy_times snap b).mp ((hmemYS b).mp hb)
        exact ⟨p, hp, ev, hev, hoff, by omega, by omega⟩

theorem narrow_none (ws we d : Int) (snap : AttendeeEvents)
    (hwf : ∀ p ∈ snap, ∀ ev ∈ p.2, ev.StartTime ≤ ev.EndTime) (hd : 0 < d)
    (h : find_first_free_slot_in_window ws we d snap = none) :
    ∀ t : Int, ws ≤ t → t + d ≤ we →
      ∃ p ∈ snap, ∃ ev ∈ p.2, ev.Summary ≠ "Off Hours" ∧
        ev.StartTime < t + d ∧ t < ev.EndTime := by
  intro t ht1 ht2
  unfold find_first_free_slot_in_window at h
  cases hbsy : busy_times snap with
  | nil =>
    rw [hbsy] at h
    have h2 : (if ws + d ≤ we then some (ws, ws + d) else none) = none := h
    by_cases hfit : ws + d ≤ we
    · rw [if_pos hfit] at h2
      cases h2
    · omega
  | cons x rest =>
    rw [hbsy] at h
    have h2 : scanGaps ws we d ws
        (mergeIntervals (List.insertionSort startLE (x :: rest))) = none := h
    have hmemSB : ∀ b : Int × Int,
        b ∈ List.insertionSort startLE (x :: rest) ↔
          b ∈ busy_times snap := by
      intro b
      rw [List.mem_insertionSort, hbsy]
    have hpwSB : List.Pairwise startLE
        (List.insertionSort startLE (x :: rest)) :=
      List.sorted_insertionSort startLE (x :: rest)
    have hwfSB : ∀ b ∈ List.insertionSort startLE (x :: rest),
        b.1 ≤ b.2 := by
      intro b hb
      obtain ⟨p, hp, ev, hev, hoff, hb1, hb2⟩ :=
        (mem_busy_times snap b).mp ((hmemSB b).mp hb)
      have := hwf p hp ev hev
      omega
    cases hSB : List.insertionSort startLE (x :: rest) with
    | nil =>
      have hx : x ∈ List.insertionSort startLE (x :: rest) := by
        rw [List.mem_insertionSort]
        exact List.mem_cons_self _ _
      rw [hSB] at hx
      exact absurd hx (List.not_mem_nil x)
    | cons y ys =>
      rw [hSB] at h2 hpwSB hwfSB
      have hmemYS : ∀ b : Int × Int, b ∈ y :: ys ↔ b ∈ busy_times snap := by
        intro b
        rw [← hSB]
        exact hmemSB b
      have h3 : scanGaps ws we d ws (mergeGo y ys) = none := h2
      obtain ⟨m, hm, hm1, hm2⟩ := scanGaps_none ws we d (mergeGo y ys) ws
        h3 t (by omega) ht2
      obtain ⟨b, hb, hb1, hb2⟩ := overlap_merge_orig y ys hpwSB hwfSB t d
        hd m hm ⟨hm1, hm2⟩
      obtain ⟨p, hp, ev, hev, hoff, hv1, hv2⟩ :=
        (mem_busy_times snap b).mp ((hmemYS b).mp hb)
      exact ⟨p, hp, ev, hev, hoff, by omega, by omega⟩

/-- C1: narrow-search correctness of `find_first_free_slot_in_window`, for
well-formed snapshots (every event has `start ≤ end`) and positive
durations.  A returned slot `(s, e)` satisfies `e = s + d`,
`windowStart ≤ s`, `e ≤ windowEnd`, overlaps no non-protected event of any
attendee, and starts the first qualifying gap: any strictly earlier
in-window start would overlap some non-protected event.  A `none` result
means no in-window placement of length `d` avoids all non-protected events
(in particular whenever `d` exceeds the window, since no placement fits at
all).  The spec's concrete instance — busy 09:00–10:00 and 10:30–11:30,
window 09:00–12:00, 30-minute request — yields (10:00, 10:30). -/
theorem narrow_search_correct (ws we d : Int) (snap : AttendeeEvents)
    (hwf : ∀ p ∈ snap, ∀ ev ∈ p.2, ev.StartTime ≤ ev.EndTime)
    (hd : 0 < d) :
    (∀ s e : Int,
      find_first_free_slot_in_window ws we d snap = some (s, e) →
      e = s + d ∧ ws ≤ s ∧ e ≤ we ∧
      (∀ p ∈ snap, ∀ ev ∈ p.2, ev.Summary ≠ "Off Hours" →
        ¬(ev.StartTime < e ∧ s < ev.EndTime)) ∧
      (∀ t : Int, ws ≤ t → t + d ≤ we → t < s →
        ∃ p ∈ snap, ∃ ev ∈ p.2, ev.Summary ≠ "Off Hours" ∧
          ev.StartTime < t + d ∧ t < ev.EndTime)) ∧
    (find_first_free_slot_in_window ws we d snap = none →
      ∀ t : Int, ws ≤ t → t + d ≤ we →
        ∃ p ∈ snap, ∃ ev ∈ p.2, ev.Summary ≠ "Off Hours" ∧
          ev.StartTime < t + d ∧ t < ev.EndTime) ∧
    find_first_free_slot_in_window 540 720 30 narrowSnap =
      some (600, 630) :=
  ⟨fun s e h => narrow_sound ws we d snap hwf hd s e h,
   fun h => narrow_none ws we d snap hwf hd h,
   by decide⟩

theorem narrow_search_correct_witness :
    (∀ s e : Int,
      find_first_free_slot_in_window 540 720 30 narrowSnap = some (s, e) →
      e = s + 30 ∧ 540 ≤ s ∧ e ≤ 720 ∧
      (∀ p ∈ narrowSnap, ∀ ev ∈ p.2, ev.Summary ≠ "Off Hours" →
        ¬(ev.StartTime < e ∧ s < ev.EndTime)) ∧
      (∀ t : Int, 540 ≤ t → t + 30 ≤ 720 → t < s →
        ∃ p ∈ narrowSnap, ∃ ev ∈ p.2, ev.Summary ≠ "Off Hours" ∧
          ev.StartTime < t + 30 ∧ t < ev.EndTime)) ∧
    (find_first_free_slot_in_window 540 720 30 narrowSnap = none →
      ∀ t : Int, 540 ≤ t → t + 30 ≤ 720 →
        ∃ p ∈ narrowSnap, ∃ ev ∈ p.2, ev.Summary ≠ "Off Hours" ∧
          ev.StartTime < t + 30 ∧ t < ev.EndTime) ∧
    find_first_free_slot_in_window 540 720 30 narrowSnap =
      some (600, 630) :=
  narrow_search_correct 540 720 30 narrowSnap (by decide) (by decide)
